import Mathlib

/-!
Verification of the zuke BDD test engine (Rust) against its specification.
Definitions are a shallow embedding of the source files under src/zuke and
src/zuke-macros; each definition's doc comment names the Rust item it embeds.
Machine timestamps are modelled as natural numbers supplied at each call that
the source performs with Utc::now().
-/

namespace Zuke

/-- Embeds enum Verdict (src/zuke/src/outcome.rs lines 58-78), declared in the
source order Undecided, Excluded, Skipped, Passed, PassedWithWarnings,
ExpectedFailure, UnexpectedPass, Failed, Canceled.  Rust derives PartialOrd/Ord
from the declaration order. -/
inductive Verdict where
  | undecided
  | excluded
  | skipped
  | passed
  | passedWithWarnings
  | expectedFailure
  | unexpectedPass
  | failed
  | canceled
deriving DecidableEq, Repr, Fintype

/-- Discriminant of a Verdict; the derived Rust Ord compares discriminants. -/
def Verdict.rank : Verdict → Nat
  | .undecided => 0
  | .excluded => 1
  | .skipped => 2
  | .passed => 3
  | .passedWithWarnings => 4
  | .expectedFailure => 5
  | .unexpectedPass => 6
  | .failed => 7
  | .canceled => 8

/-- Embeds the derived strict order on Verdict (discriminant comparison). -/
def Verdict.vlt (a b : Verdict) : Prop := a.rank < b.rank

instance (a b : Verdict) : Decidable (Verdict.vlt a b) := by
  unfold Verdict.vlt; infer_instance

/-- Embeds the derived non-strict order on Verdict. -/
def Verdict.vle (a b : Verdict) : Prop := a.rank ≤ b.rank

instance (a b : Verdict) : Decidable (Verdict.vle a b) := by
  unfold Verdict.vle; infer_instance

/-- Maximum of two verdicts under the derived order; Outcome::add_child
(outcome.rs lines 235-242) computes exactly this with its conditional
assignment. -/
def Verdict.vmax (a b : Verdict) : Verdict := if a.rank < b.rank then b else a

/-- Embeds Verdict::passed (outcome.rs lines 88-93). -/
def Verdict.passedP (v : Verdict) : Bool :=
  match v with
  | .passed | .passedWithWarnings | .expectedFailure => true
  | _ => false

/-- Embeds Verdict::skipped (outcome.rs lines 96-98). -/
def Verdict.skippedP (v : Verdict) : Bool :=
  match v with
  | .excluded | .skipped => true
  | _ => false

/-- Embeds Verdict::failed (outcome.rs lines 106-111). -/
def Verdict.failedP (v : Verdict) : Bool :=
  match v with
  | .unexpectedPass | .failed | .canceled => true
  | _ => false

/-- Embeds struct Location (src/zuke/src/vocab.rs lines 37-42): source file
and line of a step implementation. -/
structure Location where
  path : String
  line : Int
deriving DecidableEq, Repr

/-- Embeds enum vocab::Error (vocab.rs lines 14-32): no implementation,
multiple implementations, or a capture wiring failure. -/
inductive VocabError where
  | noMatch (what : String)
  | multipleMatches (what : String) (locations : List Location)
  | badParameters
deriving DecidableEq, Repr

/-- Model of anyhow::Error as it is distinguished by the engine: an error
either downcasts to StepError (src/zuke/src/step.rs lines 13-19, fields
verdict and optional reason) or it does not; among the rest the step-registry
errors (vocab.rs) are kept distinguishable. -/
inductive AnyErr where
  | step (verdict : Verdict) (reason : Option AnyErr)
  | vocab (e : VocabError)
  | other (msg : String)
deriving Repr

/-- Verdict that Outcome::set_err installs for a given error: the carried
verdict when the error downcasts to StepError, Failed otherwise
(outcome.rs lines 217-231). -/
def AnyErr.errVerdict : AnyErr → Verdict
  | .step v _ => v
  | _ => .failed

/-- Embeds StepError::cancel (step.rs lines 129-134): verdict Canceled,
no reason. -/
def stepErrorCancel : AnyErr := .step .canceled none

/-- Embeds StepError::skip (step.rs lines 79-84): verdict Skipped, no
reason. -/
def stepErrorSkip : AnyErr := .step .skipped none

/-- Model of Component (src/zuke/src/component.rs lines 12-20): the tag lists
of the feature/rule/scenario levels when present, whether a step pointer is
set, and the included/excluded flags.  Fields not needed by the claims
(options, names, AST pointers) are omitted. -/
structure Component where
  featureTags : Option (List String)
  ruleTags : Option (List String)
  scenarioTags : Option (List String)
  hasStep : Bool
  included : Bool
  excluded : Bool
deriving DecidableEq, Repr

/-- Embeds Component::tags (component.rs lines 160-181): a vector is built and
extended with the scenario tags, then the rule tags, then the feature tags,
each guarded by presence of that level. -/
def Component.tags (c : Component) : List String :=
  let tags : List String := []
  let tags := match c.scenarioTags with
    | some s => tags ++ s
    | none => tags
  let tags := match c.ruleTags with
    | some r => tags ++ r
    | none => tags
  let tags := match c.featureTags with
    | some f => tags ++ f
    | none => tags
  tags

/-- Embeds Component::tags_uninherited (component.rs lines 146-157): the tags
of the deepest non-step level, empty at global scope. -/
def Component.tagsUninherited (c : Component) : List String :=
  match c.scenarioTags with
  | some s => s
  | none =>
    match c.ruleTags with
    | some r => r
    | none =>
      match c.featureTags with
      | some f => f
      | none => []

/-- Field record of Outcome (outcome.rs lines 13-30), parameterized by the
child type to allow the nested recursion through the children vector. -/
structure OutcomeData (α : Type) where
  component : Component
  verdict : Verdict
  reason : Option AnyErr
  started : Nat
  ended : Nat
  children : List α

/-- Embeds struct Outcome (outcome.rs lines 13-30). -/
inductive Outcome where
  | mk : OutcomeData Outcome → Outcome

/-- Projection to the field record of an Outcome. -/
def Outcome.data : Outcome → OutcomeData Outcome
  | .mk d => d

/-- Verdict field of an Outcome. -/
def Outcome.verdict (o : Outcome) : Verdict := o.data.verdict

/-- Reason field of an Outcome. -/
def Outcome.reason (o : Outcome) : Option AnyErr := o.data.reason

/-- Ended timestamp of an Outcome. -/
def Outcome.ended (o : Outcome) : Nat := o.data.ended

/-- Started timestamp of an Outcome. -/
def Outcome.started (o : Outcome) : Nat := o.data.started

/-- Children of an Outcome. -/
def Outcome.children (o : Outcome) : List Outcome := o.data.children

/-- Component of an Outcome. -/
def Outcome.component (o : Outcome) : Component := o.data.component

/-- Embeds Outcome::new (outcome.rs lines 142-151): reason None, started and
ended both the current time, no children. -/
def Outcome.new (component : Component) (verdict : Verdict) (now : Nat) : Outcome :=
  .mk { component := component, verdict := verdict, reason := none,
        started := now, ended := now, children := [] }

/-- Embeds Outcome::undecided (outcome.rs lines 154-156). -/
def Outcome.undecided (component : Component) (now : Nat) : Outcome :=
  Outcome.new component .undecided now

/-- Embeds Outcome::with_parent (outcome.rs lines 159-172): excluded
components start Excluded; otherwise Undecided and Excluded parents are
inherited and any other parent verdict yields Skipped. -/
def Outcome.withParent (component : Component) (parent : Outcome) (now : Nat) : Outcome :=
  let verdict :=
    if component.excluded then Verdict.excluded
    else
      match parent.verdict with
      | .undecided => Verdict.undecided
      | .excluded => Verdict.excluded
      | _ => Verdict.skipped
  Outcome.new component verdict now

/-- Embeds Outcome::set_skip (outcome.rs lines 175-178): sets the verdict to
Skipped and nothing else (in particular the ended timestamp is untouched). -/
def Outcome.setSkip (o : Outcome) : Outcome :=
  .mk { o.data with verdict := .skipped }

/-- Embeds Outcome::set_skip_with_reason (outcome.rs lines 181-185): sets the
verdict to Skipped and the reason; the ended timestamp is untouched. -/
def Outcome.setSkipWithReason (o : Outcome) (e : AnyErr) : Outcome :=
  .mk { o.data with verdict := .skipped, reason := some e }

/-- Embeds Outcome::set_passed (outcome.rs lines 188-191): sets the verdict to
Passed; the ended timestamp is untouched. -/
def Outcome.setPassed (o : Outcome) : Outcome :=
  .mk { o.data with verdict := .passed }

/-- Embeds Outcome::set_excluded (outcome.rs lines 194-197): sets the verdict
to Excluded; the ended timestamp is untouched. -/
def Outcome.setExcluded (o : Outcome) : Outcome :=
  .mk { o.data with verdict := .excluded }

/-- Embeds Outcome::set_err (outcome.rs lines 217-231): when the error
downcasts to StepError the carried verdict and reason are adopted, otherwise
the verdict becomes Failed with the error as reason; ended is set to now. -/
def Outcome.setErr (o : Outcome) (err : AnyErr) (now : Nat) : Outcome :=
  match err with
  | .step v r => .mk { o.data with verdict := v, reason := r, ended := now }
  | e => .mk { o.data with verdict := .failed, reason := some e, ended := now }

/-- Embeds Outcome::set_result (outcome.rs lines 202-212): Ok sets the verdict
to Passed, Err delegates to set_err; ended is set to now in both branches. -/
def Outcome.setResult (o : Outcome) (result : Except AnyErr Unit) (now : Nat) : Outcome :=
  let o' :=
    match result with
    | .ok _ => Outcome.mk { o.data with verdict := .passed }
    | .error e => o.setErr e now
  .mk { o'.data with ended := now }

/-- Embeds Outcome::add_child (outcome.rs lines 235-242): the verdict is
replaced by the child's when the child's is greater in the derived order, the
child is pushed, and ended is set to now. -/
def Outcome.addChild (o : Outcome) (child : Outcome) (now : Nat) : Outcome :=
  .mk { o.data with
        verdict := if o.data.verdict.rank < child.verdict.rank then child.verdict
                   else o.data.verdict,
        children := o.data.children ++ [child],
        ended := now }

/-- Embeds Outcome::is_undecided (outcome.rs lines 245-247). -/
def Outcome.isUndecided (o : Outcome) : Bool := o.verdict = .undecided

/-- Mutation performed on a single Outcome during a run: one of the set_*
calls or an add_child, each carrying the timestamp of its call. -/
inductive Op where
  | setSkip
  | setSkipWithReason (e : AnyErr)
  | setPassed
  | setExcluded
  | setErr (e : AnyErr) (now : Nat)
  | setResult (r : Except AnyErr Unit) (now : Nat)
  | addChild (child : Outcome) (now : Nat)

/-- Applies one mutation to an outcome via the corresponding source method. -/
def Op.apply (o : Outcome) : Op → Outcome
  | .setSkip => o.setSkip
  | .setSkipWithReason e => o.setSkipWithReason e
  | .setPassed => o.setPassed
  | .setExcluded => o.setExcluded
  | .setErr e now => o.setErr e now
  | .setResult r now => o.setResult r now
  | .addChild c now => o.addChild c now

/-- Applies a run's worth of mutations to an outcome, in order. -/
def applyOps (o : Outcome) (ops : List Op) : Outcome :=
  ops.foldl Op.apply o

/-- Verdict installed by a mutation when it is a set_* call, none for
add_child. -/
def Op.setVerdict? : Op → Option Verdict
  | .setSkip => some .skipped
  | .setSkipWithReason _ => some .skipped
  | .setPassed => some .passed
  | .setExcluded => some .excluded
  | .setErr e _ => some e.errVerdict
  | .setResult r _ =>
      some (match r with
            | .ok _ => .passed
            | .error e => e.errVerdict)
  | .addChild _ _ => none

/-- Child verdict contributed by a mutation when it is an add_child. -/
def Op.childVerdict? : Op → Option Verdict
  | .addChild c _ => some c.verdict
  | _ => none

/-- Summary of a mutation sequence read from the right: the verdict installed
by the last set_* call (if any) and the verdicts of the children added after
that call, in order. -/
def tailSummary (ops : List Op) : Option Verdict × List Verdict :=
  ops.foldr
    (fun op acc =>
      match acc.1 with
      | some _ => acc
      | none =>
        match op.setVerdict? with
        | some v => (some v, acc.2)
        | none =>
          match op.childVerdict? with
          | some c => (none, c :: acc.2)
          | none => acc)
    (none, [])

/-- Maximum the specification's invariant 2 predicts for a run: the fold of
verdict max over every child verdict and every set_* verdict of the run,
starting from the initial verdict. -/
def claimedMax (init : Verdict) (ops : List Op) : Verdict :=
  (ops.filterMap Op.childVerdict? ++ ops.filterMap Op.setVerdict?).foldl Verdict.vmax init

/-- Model of the panic payload (std Any) as the engine distinguishes it:
panic::to_error (src/zuke/src/panic.rs lines 72-84) downcasts to &str,
String, &OsStr and &OsString in that order; every other payload — including
a StepError — falls through to the generic branch. -/
inductive Payload where
  | str (s : String)
  | string (s : String)
  | osStr (s : String)
  | osString (s : String)
  | stepError (verdict : Verdict) (reason : Option AnyErr)
  | otherAny
deriving Repr

/-- Generic message produced by panic::to_error when the payload is not a
string type (panic.rs line 82). -/
def panickedMsg : String := "Panicked! (No message available)"

/-- Embeds panic::to_error (panic.rs lines 72-84): string payloads keep their
message, everything else becomes the generic message; the result is a plain
anyhow error, never a StepError. -/
def toError : Payload → AnyErr
  | .str s => .other s
  | .string s => .other s
  | .osStr s => .other s
  | .osString s => .other s
  | .stepError _ _ => .other panickedMsg
  | .otherAny => .other panickedMsg

/-- Embeds panic::flatten (panic.rs lines 62-70): a completed call returns
its own result, a panic is converted with to_error. -/
def flatten : Except Payload (Except AnyErr Unit) → Except AnyErr Unit
  | .ok r => r
  | .error p => .error (toError p)

/-- Embeds gherkin StepType as used by Vocab::execute
(src/zuke/src/vocab.rs lines 89-93): the typed keyword of a step. -/
inductive StepType where
  | given
  | when_
  | then_
deriving DecidableEq, Repr

/-- Prefix prepended by the normalization in Vocab::execute
(vocab.rs lines 89-94). -/
def StepType.prefixStr : StepType → String
  | .given => "Given "
  | .when_ => "When "
  | .then_ => "Then "

/-- Step fields consumed by Vocab::execute: typed keyword, raw keyword text,
and value text. -/
structure GStep where
  ty : StepType
  keyword : String
  value : String
deriving DecidableEq, Repr

/-- Model of a registered StepImplementation (vocab.rs lines 50-57): its
compiled regex is abstracted to a matcher predicate and a captures function
(none models a captures() failure), plus its location and its execute body,
which may panic. -/
structure StepImpl where
  isMatch : String → Bool
  capture : String → Option Nat
  loc : Location
  run : Nat → Except Payload (Except AnyErr Unit)

instance : Inhabited StepImpl :=
  ⟨{ isMatch := fun _ => false, capture := fun _ => none,
     loc := { path := "", line := 0 }, run := fun _ => .ok (.ok ()) }⟩

/-- Embeds struct Vocab (vocab.rs lines 62-65): the combined regex set and
the registered steps. -/
structure Vocab where
  regexes : List (String → Bool)
  steps : List StepImpl

/-- Embeds Vocab::new (vocab.rs lines 69-79): collects every registered step
and builds the regex set from their patterns; no cross-pattern ambiguity
check happens here. -/
def Vocab.new (steps : List StepImpl) : Vocab :=
  { regexes := steps.map (fun s => s.isMatch), steps := steps }

/-- Indices of the regex-set entries matching a line, as returned by
RegexSet::matches in Vocab::execute (vocab.rs line 96). -/
def Vocab.matchIndices (v : Vocab) (line : String) : List Nat :=
  (List.range v.regexes.length).filter
    (fun i => (v.regexes.getD i (fun _ => false)) line)

/-- Embeds the tail of Vocab::execute plus Vocab::execute_step
(vocab.rs lines 109-135): run the winning regex's captures (a captures
failure is BadParameters, vocab.rs lines 110-113) and hand off to the
implementation inside the panic envelope. -/
def dispatchOne (impl : StepImpl) (line : String) : Except AnyErr Unit :=
  match impl.capture line with
  | none => .error (.vocab .badParameters)
  | some caps => flatten (impl.run caps)

/-- Embeds Vocab::execute (vocab.rs lines 82-117): normalize the step text to
English, collect all matching pattern indices, and fail with NoMatch or
MultipleMatches unless exactly one pattern matches. -/
def Vocab.execute (v : Vocab) (ctxStep : Option GStep) : Except AnyErr Unit :=
  match ctxStep with
  | none => .error (.other "Step dispatch outside of step context")
  | some step =>
    let line := step.ty.prefixStr ++ step.value
    let ms := v.matchIndices line
    if ms.isEmpty then
      .error (.vocab (.noMatch (step.keyword ++ " " ++ step.value)))
    else if 1 < ms.length then
      .error (.vocab (.multipleMatches (step.keyword ++ " " ++ step.value)
        (ms.map (fun i => (v.steps.getD i default).loc))))
    else
      dispatchOne (v.steps.getD (ms.headD 0) default) line

/-- Concrete step implementation matching the normalized text of a foo step,
registered at location a.rs. -/
def implFooA : StepImpl :=
  { isMatch := fun s => s = "Given a foo", capture := fun _ => some 0,
    loc := { path := "a.rs", line := 1 }, run := fun _ => .ok (.ok ()) }

/-- Concrete step implementation also matching the foo step, registered at
location b.rs. -/
def implFooB : StepImpl :=
  { isMatch := fun s => s = "Given a foo", capture := fun _ => some 0,
    loc := { path := "b.rs", line := 2 }, run := fun _ => .ok (.ok ()) }

/-- Concrete step implementation matching only a bar step. -/
def implBar : StepImpl :=
  { isMatch := fun s => s = "Given a bar", capture := fun _ => some 7,
    loc := { path := "c.rs", line := 3 }, run := fun _ => .ok (.ok ()) }

/-- Concrete foo step as parsed from a feature file. -/
def stepFoo : GStep := { ty := .given, keyword := "Given", value := "a foo" }

/-- Model of Flag (src/zuke/src/flag.rs): a one-shot signal; the only state
is whether set() has closed the channel. -/
structure Flag where
  isSet : Bool
deriving DecidableEq, Repr

/-- Embeds Flag::set (flag.rs lines 34-38): closes the channel regardless of
the current state (idempotent). -/
def Flag.set (_ : Flag) : Flag := ⟨true⟩

/-- Poll round at which Flag::wait (flag.rs lines 29-31) completes: the first
poll when the flag is set, never when it is unset. -/
def Flag.waitPolls (f : Flag) : Option Nat :=
  if f.isSet then some 1 else none

/-- Model of an async step body in the select generated by make_call
(src/zuke-macros/src/utils.rs lines 40-52): the poll round at which the body
completes (1 means ready at the very first poll) and the result it then
produces. -/
structure FutModel where
  polls : Nat
  result : Except AnyErr Unit

/-- Winner of futures::future::select(fut, canceled): in every poll round the
first future is polled first, so the body wins ties.  True means the body
(the Left arm) wins. -/
def selectFirstWins (a : Nat) (b : Option Nat) : Bool :=
  match b with
  | none => true
  | some nb => a ≤ nb

/-- Embeds the cancellable dispatch generated by make_call
(utils.rs lines 40-52): select the body against flag.wait(); if the body
completes first its result stands, otherwise the dispatch resolves to
StepError::cancel(). -/
def makeCallAsync (flag : Flag) (fut : FutModel) : Except AnyErr Unit :=
  if selectFirstWins fut.polls flag.waitPolls then fut.result
  else .error stepErrorCancel

/-- Embeds the teardown half of OpenContext::finalize
(src/zuke/src/context.rs lines 176-229): each scope teardown result is
checked and an error is attached to the outcome with set_err. -/
def teardownApplied (o : Outcome) (results : List (Except AnyErr Unit)) (now : Nat) :
    Outcome :=
  results.foldl
    (fun acc r =>
      match r with
      | .ok _ => acc
      | .error e => acc.setErr e now)
    o

/-- Embeds the late inclusion evaluation at the end of OpenContext::finalize
(context.rs lines 230-238): an outcome still undecided becomes Passed when
its component is included and Excluded otherwise. -/
def lateEval (o : Outcome) : Outcome :=
  if o.isUndecided then
    (if o.component.included then o.setPassed else o.setExcluded)
  else o

/-- Embeds OpenContext::finalize (context.rs lines 168-240) restricted to its
effect on the outcome: teardown errors are attached, then inclusion is late
evaluated.  Every level of the runner (global, feature, rule, scenario) ends
with a call to this function. -/
def finalize (o : Outcome) (results : List (Except AnyErr Unit)) (now : Nat) : Outcome :=
  lateEval (teardownApplied o results now)

/-- Embeds the eager exclusion at the top of StandardRunner::run_scenario
(src/zuke/src/runner/standard.rs lines 194-197): a scenario whose component
is not included is set Excluded before any of its steps run. -/
def runScenarioEntry (o : Outcome) : Outcome :=
  if !o.component.included then o.setExcluded else o

/-- Scanner state of StepArgs::expand_pattern
(src/zuke-macros/src/step_args.rs lines 38-43). -/
inductive ScanState where
  | scanning
  | escaped
  | ident
  | matchPattern
deriving DecidableEq, Repr

/-- Characters treated as meta characters by regex::escape (the regex crate's
is_meta_character). -/
def isRegexMeta (c : Char) : Bool :=
  c == '\\' || c == '.' || c == '+' || c == '*' || c == '?' || c == '(' ||
  c == ')' || c == '|' || c == '[' || c == ']' || c == '{' || c == '}' ||
  c == '^' || c == '$' || c == '#' || c == '&' || c == '-' || c == '~'

/-- Embeds regex::escape as used on literal slices by expand_pattern
(step_args.rs lines 54 and 114): each meta character is preceded by a
backslash. -/
def regexEscape : List Char → List Char
  | [] => []
  | c :: rest => (if isRegexMeta c then ['\\', c] else [c]) ++ regexEscape rest

/-- Registration errors of expand_pattern (step_args.rs lines 66-69, 83-86,
96-99, 119), one constructor per source error message: "Capture must have a
name", "Illegal character in capture name", "Empty capture pattern",
"Unterminated brace". -/
inductive ExpandError where
  | captureMustHaveName
  | illegalCharInCaptureName (c : Char)
  | emptyCapturePattern
  | unterminatedBrace
deriving DecidableEq, Repr

/-- Character-level idealization of the loop of StepArgs::expand_pattern
(step_args.rs lines 49-120), carrying the pending slice seg and the output
out explicitly.  The source instead slices the pattern String at byte
offsets taken from chars().enumerate() ordinals; scanBytes below embeds that
byte-offset behavior, and the two agree exactly on patterns whose characters
are all single UTF-8 bytes. -/
def scanAux : List Char → ScanState → List Char → List Char →
    Except ExpandError (List Char)
  | [], .scanning, seg, out => .ok (out ++ regexEscape seg)
  | [], .escaped, seg, out => .ok (out ++ regexEscape seg)
  | [], .ident, _, _ => .error .unterminatedBrace
  | [], .matchPattern, _, _ => .error .unterminatedBrace
  | c :: rest, .scanning, seg, out =>
    if c = '\\' then scanAux rest .escaped (seg ++ [c]) out
    else if c = '{' then scanAux rest .ident [] (out ++ regexEscape seg)
    else scanAux rest .scanning (seg ++ [c]) out
  | c :: rest, .escaped, seg, out => scanAux rest .scanning (seg ++ [c]) out
  | c :: rest, .ident, seg, out =>
    if c = '}' ∨ c = ':' then
      if seg = [] then .error .captureMustHaveName
      else if c = '}' then
        scanAux rest .scanning [] (out ++ ("(?P<".toList ++ seg ++ ">.*)".toList))
      else
        scanAux rest .matchPattern [] (out ++ ("(?P<".toList ++ seg ++ ['>']))
    else if c ≠ '_' ∧ c.isAlphanum = false then .error (.illegalCharInCaptureName c)
    else scanAux rest .ident (seg ++ [c]) out
  | c :: rest, .matchPattern, seg, out =>
    if c = '}' then
      if seg = [] then .error .emptyCapturePattern
      else scanAux rest .scanning [] (out ++ seg ++ [')'])
    else scanAux rest .matchPattern (seg ++ [c]) out

/-- Runs the character-level scanner from the Scanning state with empty
slice and output; agrees with expand_pattern exactly on single-byte
patterns. -/
def expandPattern (p : List Char) : Except ExpandError (List Char) :=
  scanAux p .scanning [] []

/-- Outcome of running the expand_pattern proc-macro body: a compiled regex,
one of its returned errors, or a panic of the macro itself (a String slice
whose byte offset is not a character boundary). -/
inductive MacroResult where
  | ok (regex : List Char)
  | err (e : ExpandError)
  | panicked
deriving DecidableEq, Repr

/-- Lift of the character-level scanner's result into MacroResult. -/
def liftE : Except ExpandError (List Char) → MacroResult
  | .ok r => .ok r
  | .error e => .err e

/-- Every character of the text occupies a single UTF-8 byte (the ASCII
case, in which char ordinals and byte offsets coincide). -/
def allSingleByte (p : List Char) : Prop := ∀ c ∈ p, c.utf8Size = 1

instance : DecidablePred allSingleByte := fun p => by
  unfold allSingleByte; infer_instance

/-- Drops a bytes from the UTF-8 text, as Rust's byte indexing does: none
when a is not a character boundary or exceeds the text. -/
def byteDrop? : List Char → Nat → Option (List Char)
  | p, 0 => some p
  | [], _ + 1 => none
  | c :: rest, a + 1 =>
    if c.utf8Size ≤ a + 1 then byteDrop? rest (a + 1 - c.utf8Size) else none

/-- Takes b bytes from the UTF-8 text: none when b is not a character
boundary or exceeds the text. -/
def byteTake? : List Char → Nat → Option (List Char)
  | _, 0 => some []
  | [], _ + 1 => none
  | c :: rest, b + 1 =>
    if c.utf8Size ≤ b + 1 then (byteTake? rest (b + 1 - c.utf8Size)).map (c :: ·)
    else none

/-- Embeds Rust's pattern[a..b] on a String: the characters between byte
offsets a and b, none (a panic) when either offset is off a character
boundary or past the end. -/
def byteSlice? (p : List Char) (a b : Nat) : Option (List Char) :=
  (byteDrop? p a).bind (fun q => byteTake? q (b - a))

/-- Embeds the loop of StepArgs::expand_pattern (step_args.rs lines 49-120)
with the source's actual indexing: the loop variable i is the ordinal from
chars().enumerate() and start is a saved i + 1, but both are used as byte
offsets in pattern[start..i] and pattern[start..]; a slice off a character
boundary panics the proc macro.  Arguments: the original pattern, the
remaining characters, the current ordinal i, the state, start, and the
output built so far. -/
def scanBytes (p : List Char) : List Char → Nat → ScanState → Nat → List Char →
    MacroResult
  | [], _, .scanning, start, out =>
    match byteDrop? p start with
    | none => .panicked
    | some tail => .ok (out ++ regexEscape tail)
  | [], _, .escaped, start, out =>
    match byteDrop? p start with
    | none => .panicked
    | some tail => .ok (out ++ regexEscape tail)
  | [], _, .ident, _, _ => .err .unterminatedBrace
  | [], _, .matchPattern, _, _ => .err .unterminatedBrace
  | c :: rest, i, .scanning, start, out =>
    if c = '\\' then scanBytes p rest (i + 1) .escaped start out
    else if c = '{' then
      match byteSlice? p start i with
      | none => .panicked
      | some seg => scanBytes p rest (i + 1) .ident (i + 1) (out ++ regexEscape seg)
    else scanBytes p rest (i + 1) .scanning start out
  | _ :: rest, i, .escaped, start, out => scanBytes p rest (i + 1) .scanning start out
  | c :: rest, i, .ident, start, out =>
    if c = '}' ∨ c = ':' then
      match byteSlice? p start i with
      | none => .panicked
      | some seg =>
        if seg = [] then .err .captureMustHaveName
        else if c = '}' then
          scanBytes p rest (i + 1) .scanning (i + 1)
            (out ++ ("(?P<".toList ++ seg ++ ">.*)".toList))
        else
          scanBytes p rest (i + 1) .matchPattern (i + 1)
            (out ++ ("(?P<".toList ++ seg ++ ['>']))
    else if c ≠ '_' ∧ c.isAlphanum = false then .err (.illegalCharInCaptureName c)
    else scanBytes p rest (i + 1) .ident start out
  | c :: rest, i, .matchPattern, start, out =>
    if c = '}' then
      match byteSlice? p start i with
      | none => .panicked
      | some seg =>
        if seg = [] then .err .emptyCapturePattern
        else scanBytes p rest (i + 1) .scanning (i + 1) (out ++ seg ++ [')'])
    else scanBytes p rest (i + 1) .matchPattern start out

/-- Embeds StepArgs::expand_pattern on an Expression pattern
(step_args.rs lines 33-121) including the byte-offset slicing of the
source: run the byte-level scanner from the Scanning state at ordinal 0 with
start 0 and empty output. -/
def expandPatternBytes (p : List Char) : MacroResult :=
  scanBytes p p 0 .scanning 0 []

/-- Embeds enum StepKeyword (step_args.rs lines 18-24). -/
inductive StepKeyword where
  | any
  | raw
  | given
  | when_
  | then_
deriving DecidableEq, Repr

/-- Embeds the prefix table of implement_step (step_args.rs lines 245-252). -/
def StepKeyword.prefixStr : StepKeyword → String
  | .given => "Given "
  | .when_ => "When "
  | .then_ => "Then "
  | .raw => ""
  | .any => "(?:Given|When|Then) "

/-- Embeds the final pattern wrapping of implement_step
(step_args.rs line 258). -/
def finalPattern (kw : StepKeyword) (body : String) : String :=
  "^(?i)" ++ kw.prefixStr ++ body ++ "$"

/-- Abstract syntax of an expression pattern: literal text, an untyped
capture, or a capture with an embedded regex. -/
inductive PatSeg where
  | lit (s : List Char)
  | cap (name : List Char)
  | capPat (name pat : List Char)

/-- Surface text of one pattern segment. -/
def PatSeg.render : PatSeg → List Char
  | .lit s => s
  | .cap n => '{' :: (n ++ ['}'])
  | .capPat n p => '{' :: (n ++ ':' :: (p ++ ['}']))

/-- Surface text of a whole expression pattern. -/
def renderPat (segs : List PatSeg) : List Char :=
  (segs.map PatSeg.render).flatten

/-- Compiled regex text the specification predicts for one segment:
literals are regex-escaped, a capture becomes a named group over .* and a
typed capture becomes a named group over its pattern. -/
def PatSeg.compile : PatSeg → List Char
  | .lit s => regexEscape s
  | .cap n => "(?P<".toList ++ n ++ ">.*)".toList
  | .capPat n p => "(?P<".toList ++ n ++ ('>' :: (p ++ [')']))

/-- Compiled regex text of a whole expression pattern. -/
def compilePat (segs : List PatSeg) : List Char :=
  (segs.map PatSeg.compile).flatten

/-- Well-formed literal text: no escape introducer and no capture opener. -/
def litOk (s : List Char) : Prop := ∀ c ∈ s, c ≠ '\\' ∧ c ≠ '{'

/-- Character legal inside a capture name: underscore or ASCII
alphanumeric. -/
def nameChars (n : List Char) : Prop := ∀ c ∈ n, c = '_' ∨ c.isAlphanum = true

/-- Well-formed capture name: nonempty and made of legal characters. -/
def nameOk (n : List Char) : Prop := n ≠ [] ∧ nameChars n

/-- Well-formed capture pattern: nonempty and free of the closing brace. -/
def patOk (p : List Char) : Prop := p ≠ [] ∧ ∀ c ∈ p, c ≠ '}'

/-- Well-formedness of a segment. -/
def segOk : PatSeg → Prop
  | .lit s => litOk s
  | .cap n => nameOk n
  | .capPat n p => nameOk n ∧ patOk p

instance : DecidablePred litOk := fun s => by unfold litOk; infer_instance

instance : DecidablePred nameChars := fun n => by unfold nameChars; infer_instance

instance : DecidablePred nameOk := fun n => by unfold nameOk; infer_instance

instance : DecidablePred patOk := fun p => by unfold patOk; infer_instance

instance : DecidablePred segOk := fun s => by
  cases s <;> unfold segOk <;> infer_instance

/-- Concrete component used by the closed example theorems: no feature, rule
or scenario, included, not excluded. -/
def cDemo : Component :=
  { featureTags := none, ruleTags := none, scenarioTags := none,
    hasStep := false, included := true, excluded := false }

/-- Concrete component that the name filters did not include. -/
def cNotIncluded : Component :=
  { featureTags := some [], ruleTags := none, scenarioTags := some [],
    hasStep := false, included := false, excluded := false }

/-- Concrete component with one tag at each level, used to exhibit the order
produced by Component::tags. -/
def cTagged : Component :=
  { featureTags := some ["@f"], ruleTags := some ["@r"],
    scenarioTags := some ["@s"], hasStep := false,
    included := true, excluded := false }

/-- Concrete failed child outcome for the run-characterization example. -/
def exFailedChild : Outcome := Outcome.new cDemo .failed 0

/-- Concrete undecided parent outcome for the run-characterization example. -/
def exParent : Outcome := Outcome.undecided cDemo 0

/-- Concrete mutation sequence that a run can apply to a scenario outcome:
a failed step is absorbed with add_child, then an after hook returns
StepError::skip and the runner calls set_err on the scenario outcome
(src/zuke/src/context.rs lines 146-162, src/zuke/src/runner/standard.rs
scenario_worker). -/
def exRunOps : List Op := [.addChild exFailedChild 1, .setErr stepErrorSkip 2]

/-- Embeds enum FixtureState (src/zuke/src/fixture.rs lines 186-192) for one
entry of the per-scope map; an absent entry is the map's none. -/
inductive FState where
  | pending
  | ready
  | failed
deriving DecidableEq, Repr

/-- Program position of one task running FixtureSet::activate
(fixture.rs lines 284-324) for its fixed fixture key: start is before the
state lookup under the upgradable read lock; running is after inserting
Pending and releasing the lock with T::setup in flight; waiting is awaiting
the readiness channel of a Pending entry; done records activate's Ok/Err
return. -/
inductive TPC where
  | start
  | running
  | waiting
  | done (ok : Bool)
deriving DecidableEq, Repr

/-- One concurrent activate call: its fixture key and program position. -/
structure ActTask where
  key : Nat
  pc : TPC
deriving DecidableEq, Repr

/-- Global state of one FixtureSet under concurrent activate calls and hook
iteration: the type-id-to-state map and the activate tasks. -/
structure FSys where
  fmap : Nat → Option FState
  tasks : Nat → Option ActTask

/-- Pointwise update of the fixture map (HashMap::insert under the write
lock). -/
def updMap (m : Nat → Option FState) (k : Nat) (v : FState) : Nat → Option FState :=
  fun k' => if k' = k then some v else m k'

/-- Pointwise update of one task's position. -/
def updTask (ts : Nat → Option ActTask) (i : Nat) (t : ActTask) : Nat → Option ActTask :=
  fun j => if j = i then some t else ts j

/-- Observable events of the fixture-set protocol; task events carry the
task index, begin-setup also carries the key, hook events carry the key. -/
inductive FEv where
  | hitReady (i : Nat)
  | startWait (i : Nat)
  | resume (i : Nat)
  | hitFailed (i : Nat)
  | beginSetup (i k : Nat)
  | setupOk (i : Nat)
  | setupErr (i : Nat)
  | beforeHook (k : Nat)
  | afterHook (k : Nat)
deriving DecidableEq, Repr

/-- Task index of an event, none for hook events. -/
def evTask : FEv → Option Nat
  | .hitReady i => some i
  | .startWait i => some i
  | .resume i => some i
  | .hitFailed i => some i
  | .beginSetup i _ => some i
  | .setupOk i => some i
  | .setupErr i => some i
  | .beforeHook _ => none
  | .afterHook _ => none

/-- Atomic transitions of FixtureSet::activate (fixture.rs lines 284-324)
and of the hook iteration (lines 376-409).  Each constructor is one atomic
section of the source, performed under the set's lock: hitReady is the Ready
arm (line 291); startWait is the Pending arm cloning the receiver (292-297);
resume is the waiter released by the dropped sender, which happens only
after the beginner has re-inserted Ready or Failed (310-321); hitFailed is
the Failed arm returning Err(FixtureError::Failed) (298); beginSetup is the
None arm inserting Pending under the upgraded write lock, the only place
T::setup is started (299-306); setupOk and setupErr are the beginner's
unconditional re-insertions of Ready or Failed after setup returns (308-319);
beforeHook and afterHook are one callback of for_each_fixture, which invokes
an entry only when it finds it Ready (393-400). -/
inductive FStep : FSys → FEv → FSys → Prop where
  | hitReady (s : FSys) (i k : Nat) :
      s.tasks i = some ⟨k, .start⟩ → s.fmap k = some .ready →
      FStep s (.hitReady i) ⟨s.fmap, updTask s.tasks i ⟨k, .done true⟩⟩
  | startWait (s : FSys) (i k : Nat) :
      s.tasks i = some ⟨k, .start⟩ → s.fmap k = some .pending →
      FStep s (.startWait i) ⟨s.fmap, updTask s.tasks i ⟨k, .waiting⟩⟩
  | resume (s : FSys) (i k : Nat) :
      s.tasks i = some ⟨k, .waiting⟩ →
      (s.fmap k = some .ready ∨ s.fmap k = some .failed) →
      FStep s (.resume i) ⟨s.fmap, updTask s.tasks i ⟨k, .done true⟩⟩
  | hitFailed (s : FSys) (i k : Nat) :
      s.tasks i = some ⟨k, .start⟩ → s.fmap k = some .failed →
      FStep s (.hitFailed i) ⟨s.fmap, updTask s.tasks i ⟨k, .done false⟩⟩
  | beginSetup (s : FSys) (i k : Nat) :
      s.tasks i = some ⟨k, .start⟩ → s.fmap k = none →
      FStep s (.beginSetup i k)
        ⟨updMap s.fmap k .pending, updTask s.tasks i ⟨k, .running⟩⟩
  | setupOk (s : FSys) (i k : Nat) :
      s.tasks i = some ⟨k, .running⟩ →
      FStep s (.setupOk i) ⟨updMap s.fmap k .ready, updTask s.tasks i ⟨k, .done true⟩⟩
  | setupErr (s : FSys) (i k : Nat) :
      s.tasks i = some ⟨k, .running⟩ →
      FStep s (.setupErr i) ⟨updMap s.fmap k .failed, updTask s.tasks i ⟨k, .done false⟩⟩
  | beforeHook (s : FSys) (k : Nat) :
      s.fmap k = some .ready → FStep s (.beforeHook k) s
  | afterHook (s : FSys) (k : Nat) :
      s.fmap k = some .ready → FStep s (.afterHook k) s

/-- Reachability along a trace of protocol events. -/
inductive Reach : FSys → List FEv → FSys → Prop where
  | nil (s : FSys) : Reach s [] s
  | cons {s s' s'' : FSys} {e : FEv} {es : List FEv} :
      FStep s e s' → Reach s' es s'' → Reach s (e :: es) s''

/-- Initial condition: no activate call is inside T::setup yet. -/
def NoRunning (s : FSys) : Prop :=
  ∀ i t, s.tasks i = some t → t.pc ≠ .running

/-- Protocol invariant: at most one task per key is inside setup, and a key
with a task inside setup is Pending in the map. -/
def Inv (s : FSys) : Prop :=
  (∀ i j ti tj, s.tasks i = some ti → s.tasks j = some tj →
    ti.pc = .running → tj.pc = .running → ti.key = tj.key → i = j) ∧
  (∀ i t, s.tasks i = some t → t.pc = .running → s.fmap t.key = some .pending)

/-- Number of T::setup starts for a key in a trace. -/
def countBegin (tr : List FEv) (k : Nat) : Nat :=
  (tr.filter (fun e =>
    match e with
    | .beginSetup _ k' => k' = k
    | _ => false)).length

/-- Embeds the selection of FixtureSet::for_each_fixture
(fixture.rs lines 393-400): of the snapshotted keys, exactly those found
Ready have their callback invoked; Pending and Failed entries are skipped. -/
def invokedKeys (m : Nat → Option FState) (keys : List Nat) : List Nat :=
  keys.filter (fun k => m k = some .ready)

/-- Concrete initial system for the protocol witness: one activate task for
key 5, empty map. -/
def sysInit : FSys :=
  { fmap := fun _ => none,
    tasks := fun i => if i = 0 then some ⟨5, .start⟩ else none }

end Zuke

namespace Zuke

/-- Helper simp lemma: data of a constructed outcome. -/
theorem Outcome.data_mk (d : OutcomeData Outcome) : (Outcome.mk d).data = d := rfl

/-- Verdict of an outcome after add_child is the max of the old verdict and
the child's verdict. -/
theorem addChild_verdict (o c : Outcome) (now : Nat) :
    (o.addChild c now).verdict = o.verdict.vmax c.verdict := by
  simp [Outcome.addChild, Outcome.verdict, Outcome.data, Verdict.vmax]

/-- Unfolding of tailSummary on a cons cell. -/
theorem tailSummary_cons (op : Op) (ops : List Op) :
    tailSummary (op :: ops) =
      match (tailSummary ops).1 with
      | some _ => tailSummary ops
      | none =>
        match op.setVerdict? with
        | some v => (some v, (tailSummary ops).2)
        | none =>
          match op.childVerdict? with
          | some c => (none, c :: (tailSummary ops).2)
          | none => tailSummary ops := rfl

/-- Applying a set_* mutation installs exactly the verdict that
Op.setVerdict? reads off. -/
theorem apply_setVerdict (o : Outcome) (op : Op) (v : Verdict)
    (h : op.setVerdict? = some v) : (op.apply o).verdict = v := by
  cases op with
  | setSkip =>
    simp only [Op.setVerdict?, Option.some.injEq] at h; subst h; rfl
  | setSkipWithReason e =>
    simp only [Op.setVerdict?, Option.some.injEq] at h; subst h; rfl
  | setPassed =>
    simp only [Op.setVerdict?, Option.some.injEq] at h; subst h; rfl
  | setExcluded =>
    simp only [Op.setVerdict?, Option.some.injEq] at h; subst h; rfl
  | setErr e now =>
    cases e <;>
      simp_all [Op.setVerdict?, Op.apply, Outcome.setErr, AnyErr.errVerdict,
        Outcome.verdict, Outcome.data]
  | setResult r now =>
    cases r with
    | ok u =>
      simp_all [Op.setVerdict?, Op.apply, Outcome.setResult,
        Outcome.verdict, Outcome.data]
    | error e =>
      cases e <;>
        simp_all [Op.setVerdict?, Op.apply, Outcome.setResult, Outcome.setErr,
          AnyErr.errVerdict, Outcome.verdict, Outcome.data]
  | addChild c now => simp [Op.setVerdict?] at h

/-- Characterization of the verdict after an arbitrary mutation sequence:
the last set_* call installs its verdict (or the initial verdict stands) and
every add_child after it folds in with verdict max. -/
theorem applyOps_verdict (o : Outcome) (ops : List Op) :
    (applyOps o ops).verdict =
      List.foldl Verdict.vmax ((tailSummary ops).1.getD o.verdict) (tailSummary ops).2 := by
  induction ops generalizing o with
  | nil => simp [applyOps, tailSummary]
  | cons op rest ih =>
    have hstep : applyOps o (op :: rest) = applyOps (op.apply o) rest := rfl
    rw [hstep, ih (op.apply o), tailSummary_cons]
    rcases hts : (tailSummary rest).1 with _ | v
    · cases op with
      | addChild c now =>
        simp only [Op.setVerdict?, Op.childVerdict?, hts]
        have : (Op.apply o (.addChild c now)).verdict = o.verdict.vmax c.verdict :=
          addChild_verdict o c now
        simp [this, hts, List.foldl]
      | setSkip =>
        have := apply_setVerdict o .setSkip .skipped rfl
        simp [Op.setVerdict?, hts, this]
      | setSkipWithReason e =>
        have := apply_setVerdict o (.setSkipWithReason e) .skipped rfl
        simp [Op.setVerdict?, hts, this]
      | setPassed =>
        have := apply_setVerdict o .setPassed .passed rfl
        simp [Op.setVerdict?, hts, this]
      | setExcluded =>
        have := apply_setVerdict o .setExcluded .excluded rfl
        simp [Op.setVerdict?, hts, this]
      | setErr e now =>
        have := apply_setVerdict o (.setErr e now) e.errVerdict rfl
        simp [Op.setVerdict?, hts, this]
      | setResult r now =>
        cases r with
        | ok u =>
          have := apply_setVerdict o (.setResult (.ok u) now) .passed rfl
          simp [Op.setVerdict?, hts, this]
        | error e =>
          have := apply_setVerdict o (.setResult (.error e) now) e.errVerdict rfl
          simp [Op.setVerdict?, hts, this]
    · simp [hts]

/-- Claim C1 (amended): the Verdict type is totally ordered ascending as
Undecided < Excluded < Skipped < Passed < PassedWithWarnings <
ExpectedFailure < UnexpectedPass < Failed < Canceled, and add_child sets the
parent verdict to the max of parent and child under this order.  For a run,
the parent's verdict equals the maximum of the verdict installed by its last
set_* call (its initial verdict when there is none) together with the
verdicts of the children added after that call; a set_* call overwrites the
verdict unconditionally, so children absorbed before the last set_* call do
not contribute. -/
theorem C1_verdict_order_and_run_max :
    (Verdict.vlt .undecided .excluded ∧ Verdict.vlt .excluded .skipped ∧
     Verdict.vlt .skipped .passed ∧ Verdict.vlt .passed .passedWithWarnings ∧
     Verdict.vlt .passedWithWarnings .expectedFailure ∧
     Verdict.vlt .expectedFailure .unexpectedPass ∧
     Verdict.vlt .unexpectedPass .failed ∧ Verdict.vlt .failed .canceled) ∧
    (∀ a b : Verdict, a.vle b ∨ b.vle a) ∧
    (∀ a b : Verdict, a.vle b → b.vle a → a = b) ∧
    (∀ a b c : Verdict, a.vle b → b.vle c → a.vle c) ∧
    (∀ (o c : Outcome) (now : Nat), (o.addChild c now).verdict = o.verdict.vmax c.verdict) ∧
    (∀ (o : Outcome) (ops : List Op),
      (applyOps o ops).verdict =
        List.foldl Verdict.vmax ((tailSummary ops).1.getD o.verdict) (tailSummary ops).2) := by
  refine ⟨by decide, by decide, by decide, by decide, addChild_verdict, applyOps_verdict⟩

/-- Witness for C1_verdict_order_and_run_max: antisymmetry applied at
Passed, Passed. -/
theorem C1_verdict_order_and_run_max_witness : Verdict.passed = Verdict.passed :=
  C1_verdict_order_and_run_max.2.2.1 .passed .passed (by decide) (by decide)

/-- Counterexample to claim C1 as stated: a run that absorbs a Failed child
and is then hit by set_err with StepError::skip (an after hook returning
skip) ends with verdict Skipped, not the maximum Failed of the children and
set_* verdicts. -/
theorem C1_counterexample :
    (applyOps exParent exRunOps).verdict = Verdict.skipped ∧
    claimedMax exParent.verdict exRunOps = Verdict.failed ∧
    Verdict.skipped ≠ Verdict.failed :=
  ⟨rfl, rfl, by decide⟩

/-- Claim C3 (confirmed): set_result(Ok) makes the verdict Passed,
set_result(Err e) is exactly set_err(e), set_err adopts the verdict and
reason of an error that downcasts to StepError, and any other error yields
Failed with that error as the reason. -/
theorem C3_set_result_and_set_err :
    (∀ (o : Outcome) (now : Nat), (o.setResult (.ok ()) now).verdict = .passed) ∧
    (∀ (o : Outcome) (e : AnyErr) (now : Nat),
      o.setResult (.error e) now = o.setErr e now) ∧
    (∀ (o : Outcome) (v : Verdict) (r : Option AnyErr) (now : Nat),
      (o.setErr (.step v r) now).verdict = v ∧ (o.setErr (.step v r) now).reason = r) ∧
    (∀ (o : Outcome) (m : String) (now : Nat),
      (o.setErr (.other m) now).verdict = .failed ∧
      (o.setErr (.other m) now).reason = some (.other m)) := by
  refine ⟨fun o now => rfl, fun o e now => ?_, fun o v r now => ⟨rfl, rfl⟩,
    fun o m now => ⟨rfl, rfl⟩⟩
  cases e <;> rfl

/-- Claim C7 (amended): Component::tags yields scenario.tags ++ rule.tags ++
feature.tags — the deepest component first, each tag list in file order; the
spec's ancestors-first order is reversed in the code. -/
theorem C7_tags_deepest_first :
    (∀ (f r s : List String) (hs inc exc : Bool),
      Component.tags
        { featureTags := some f, ruleTags := some r, scenarioTags := some s,
          hasStep := hs, included := inc, excluded := exc } = s ++ r ++ f) ∧
    (∀ c : Component,
      c.tags = c.scenarioTags.getD [] ++ c.ruleTags.getD [] ++ c.featureTags.getD []) := by
  constructor
  · intro f r s hs inc exc
    simp [Component.tags]
  · intro c
    rcases c with ⟨f, r, s, hs, inc, exc⟩
    cases f <;> cases r <;> cases s <;> simp [Component.tags]

/-- Counterexample to claim C7 as stated: a component tagged @f at the
feature, @r at the rule and @s at the scenario yields tags() in the order
scenario, rule, feature — not feature, rule, scenario. -/
theorem C7_counterexample :
    cTagged.tags = ["@s", "@r", "@f"] ∧ cTagged.tags ≠ ["@f", "@r", "@s"] :=
  ⟨rfl, by decide⟩

/-- Claim C9 (amended): set_result, set_err and add_child update the ended
timestamp to the current time, while set_skip, set_skip_with_reason,
set_passed and set_excluded leave ended unchanged. -/
theorem C9_ended_updates :
    (∀ (o : Outcome) (r : Except AnyErr Unit) (now : Nat), (o.setResult r now).ended = now) ∧
    (∀ (o : Outcome) (e : AnyErr) (now : Nat), (o.setErr e now).ended = now) ∧
    (∀ (o c : Outcome) (now : Nat), (o.addChild c now).ended = now) ∧
    (∀ o : Outcome, o.setSkip.ended = o.ended) ∧
    (∀ (o : Outcome) (e : AnyErr), (o.setSkipWithReason e).ended = o.ended) ∧
    (∀ o : Outcome, o.setPassed.ended = o.ended) ∧
    (∀ o : Outcome, o.setExcluded.ended = o.ended) := by
  refine ⟨fun o r now => rfl, fun o e now => ?_, fun o c now => rfl,
    fun o => rfl, fun o e => rfl, fun o => rfl, fun o => rfl⟩
  cases e <;> rfl

/-- Helper: set_err leaves the component untouched. -/
theorem setErr_component (o : Outcome) (e : AnyErr) (now : Nat) :
    (o.setErr e now).component = o.component := by
  cases e <;> rfl

/-- Helper: verdict of a freshly constructed outcome. -/
theorem new_verdict (c : Component) (v : Verdict) (now : Nat) :
    (Outcome.new c v now).verdict = v := rfl

/-- Helper: verdict after set_passed. -/
theorem setPassed_verdict (o : Outcome) : o.setPassed.verdict = .passed := rfl

/-- Helper: verdict after set_excluded. -/
theorem setExcluded_verdict (o : Outcome) : o.setExcluded.verdict = .excluded := rfl

/-- Helper: attaching teardown errors leaves the component untouched. -/
theorem teardownApplied_component (o : Outcome) (results : List (Except AnyErr Unit))
    (now : Nat) : (teardownApplied o results now).component = o.component := by
  induction results generalizing o with
  | nil => rfl
  | cons r rest ih =>
    cases r with
    | ok u => exact ih o
    | error e => exact (ih (o.setErr e now)).trans (setErr_component o e now)

/-- Claim C10 (confirmed): when a context at any level is finalized and its
outcome is still Undecided after fixture teardown, the outcome becomes
Passed when its component is included and Excluded otherwise; and a scenario
whose component is not included is set Excluded eagerly, so its steps derive
an Excluded verdict through with_parent before any of them runs. -/
theorem C10_late_inclusion_evaluation :
    (∀ (o : Outcome) (results : List (Except AnyErr Unit)) (now : Nat),
      (finalize o results now).verdict =
        if (teardownApplied o results now).verdict = .undecided then
          (if o.component.included then .passed else .excluded)
        else (teardownApplied o results now).verdict) ∧
    (∀ o : Outcome, (runScenarioEntry o).verdict =
      if o.component.included then o.verdict else .excluded) ∧
    (∀ (o : Outcome) (c : Component) (now : Nat),
      o.component.included = false → c.excluded = false →
      (Outcome.withParent c (runScenarioEntry o) now).verdict = .excluded) := by
  refine ⟨fun o results now => ?_, fun o => ?_, fun o c now hinc hexc => ?_⟩
  · have hcomp := teardownApplied_component o results now
    rw [finalize, lateEval, Outcome.isUndecided, ← hcomp]
    by_cases h : (teardownApplied o results now).verdict = .undecided
    · by_cases hi : (teardownApplied o results now).component.included
      · simp [h, hi, setPassed_verdict]
      · simp [h, hi, setExcluded_verdict]
    · simp [h]
  · rw [runScenarioEntry]
    cases hb : o.component.included <;> simp [hb, setExcluded_verdict]
  · have hv : (runScenarioEntry o).verdict = .excluded := by
      simp [runScenarioEntry, hinc, setExcluded_verdict]
    rw [Outcome.withParent]
    simp only [hexc, Bool.false_eq_true, if_false, hv, new_verdict]

/-- Witness for C10_late_inclusion_evaluation: a step of a non-included
scenario derives the Excluded verdict. -/
theorem C10_late_inclusion_evaluation_witness :
    (Outcome.withParent cDemo (runScenarioEntry (Outcome.undecided cNotIncluded 0)) 1).verdict
      = .excluded :=
  C10_late_inclusion_evaluation.2.2 (Outcome.undecided cNotIncluded 0) cDemo 1 rfl rfl

/-- Claim C5 (amended): setting the flag makes every wait complete at its
first poll, and every subsequently dispatched asynchronous step whose body is
not already complete at its first poll resolves to StepError::cancel() with
verdict Canceled (and set_result then records Canceled).  A body that is
ready at its very first poll wins the select and keeps its own result, since
the generated select polls the body before the flag. -/
theorem C5_cancellation :
    (∀ f : Flag, (f.set).isSet = true) ∧
    ((Flag.mk true).waitPolls = some 1 ∧ (Flag.mk false).waitPolls = none) ∧
    (∀ (n : Nat) (r : Except AnyErr Unit),
      makeCallAsync ⟨true⟩ ⟨n + 2, r⟩ = .error stepErrorCancel) ∧
    (stepErrorCancel.errVerdict = .canceled) ∧
    (∀ (o : Outcome) (now n : Nat) (r : Except AnyErr Unit),
      (o.setResult (makeCallAsync ⟨true⟩ ⟨n + 2, r⟩) now).verdict = .canceled) := by
  have hraces : ∀ (n : Nat) (r : Except AnyErr Unit),
      makeCallAsync ⟨true⟩ ⟨n + 2, r⟩ = .error stepErrorCancel := by
    intro n r
    simp [makeCallAsync, selectFirstWins, Flag.waitPolls, show ¬ (n + 2 ≤ 1) by omega]
  refine ⟨fun f => rfl, ⟨rfl, rfl⟩, hraces, rfl, fun o now n r => ?_⟩
  rw [hraces n r]
  rfl

/-- Counterexample to claim C5 as stated: a step dispatched after the flag is
set whose body is ready at its first poll resolves to its own result, not to
Canceled — the select polls the body first. -/
theorem C5_counterexample :
    makeCallAsync ⟨true⟩ ⟨1, .ok ()⟩ = .ok () ∧
    (Except.ok () : Except AnyErr Unit) ≠ .error stepErrorCancel :=
  ⟨rfl, fun h => Except.noConfusion h⟩

/-- Claim C6 (amended): every panic is converted to an error whose message is
the panic payload when the payload is a string type and the generic
"Panicked" message otherwise; the resulting error never downcasts to
StepError, so a panic always becomes a Failed outcome — a StepError panic
payload's verdict is not honored. -/
theorem C6_panic_envelope :
    (∀ s, toError (.str s) = .other s) ∧
    (∀ s, toError (.string s) = .other s) ∧
    (∀ s, toError (.osStr s) = .other s) ∧
    (∀ s, toError (.osString s) = .other s) ∧
    (∀ (v : Verdict) (r : Option AnyErr), toError (.stepError v r) = .other panickedMsg) ∧
    (toError .otherAny = .other panickedMsg) ∧
    (∀ (p : Payload) (o : Outcome) (now : Nat),
      (o.setErr (toError p) now).verdict = .failed) ∧
    (∀ p, flatten (.error p) = .error (toError p)) ∧
    (∀ r, flatten (.ok r) = r) := by
  refine ⟨fun s => rfl, fun s => rfl, fun s => rfl, fun s => rfl,
    fun v r => rfl, rfl, fun p o now => ?_, fun p => rfl, fun r => rfl⟩
  cases p <;> rfl

/-- Counterexample to claim C6 as stated: a panic whose payload is
StepError::cancel() (verdict Canceled) still yields a Failed outcome,
because to_error only inspects string payloads. -/
theorem C6_counterexample :
    ((Outcome.undecided cDemo 0).setErr (toError (.stepError .canceled none)) 1).verdict
      = .failed ∧ Verdict.failed ≠ Verdict.canceled :=
  ⟨rfl, by decide⟩

/-- Claim C2 (confirmed): Vocab::new collects every registered pattern with
no ambiguity check; Vocab::execute normalizes the step text by prepending
"Given ", "When " or "Then " according to the step's type and matches it
against the whole set; zero matches yields NoMatch, more than one yields
MultipleMatches carrying the matching locations, and exactly one hands off
to that single implementation's captures and body. -/
theorem C2_step_registry_dispatch :
    (∀ steps : List StepImpl,
      (Vocab.new steps).steps = steps ∧
      (Vocab.new steps).regexes = steps.map (fun s => s.isMatch)) ∧
    (StepType.prefixStr .given = "Given " ∧ StepType.prefixStr .when_ = "When " ∧
     StepType.prefixStr .then_ = "Then ") ∧
    (∀ (v : Vocab) (step : GStep),
      v.matchIndices (step.ty.prefixStr ++ step.value) = [] →
      v.execute (some step) =
        .error (.vocab (.noMatch (step.keyword ++ " " ++ step.value)))) ∧
    (∀ (v : Vocab) (step : GStep) (i j : Nat) (rest : List Nat),
      v.matchIndices (step.ty.prefixStr ++ step.value) = i :: j :: rest →
      v.execute (some step) =
        .error (.vocab (.multipleMatches (step.keyword ++ " " ++ step.value)
          ((i :: j :: rest).map (fun k => (v.steps.getD k default).loc))))) ∧
    (∀ (v : Vocab) (step : GStep) (i : Nat),
      v.matchIndices (step.ty.prefixStr ++ step.value) = [i] →
      v.execute (some step) =
        dispatchOne (v.steps.getD i default) (step.ty.prefixStr ++ step.value)) := by
  refine ⟨fun steps => ⟨rfl, rfl⟩, ⟨rfl, rfl, rfl⟩,
    fun v step h => ?_, fun v step i j rest h => ?_, fun v step i h => ?_⟩
  · simp [Vocab.execute, h]
  · have h2 : ((i :: j :: rest).isEmpty) = false := rfl
    have h3 : 1 < (i :: j :: rest).length := by
      simp [List.length_cons]
    simp [Vocab.execute, h, h2, h3]
  · simp [Vocab.execute, h]

/-- Witness for C2_step_registry_dispatch: two overlapping foo patterns are
both registered and produce MultipleMatches at dispatch; a bar-only registry
produces NoMatch; a registry where exactly one pattern matches dispatches
that implementation. -/
theorem C2_step_registry_dispatch_witness :
    (Vocab.new [implFooA, implFooB]).execute (some stepFoo) =
      .error (.vocab (.multipleMatches (stepFoo.keyword ++ " " ++ stepFoo.value)
        ([0, 1].map (fun k => ((Vocab.new [implFooA, implFooB]).steps.getD k default).loc)))) ∧
    (Vocab.new [implBar]).execute (some stepFoo) =
      .error (.vocab (.noMatch (stepFoo.keyword ++ " " ++ stepFoo.value))) ∧
    (Vocab.new [implFooA, implBar]).execute (some stepFoo) =
      dispatchOne ((Vocab.new [implFooA, implBar]).steps.getD 0 default)
        (stepFoo.ty.prefixStr ++ stepFoo.value) :=
  ⟨C2_step_registry_dispatch.2.2.2.1 (Vocab.new [implFooA, implFooB]) stepFoo 0 1 [] rfl,
   C2_step_registry_dispatch.2.2.1 (Vocab.new [implBar]) stepFoo rfl,
   C2_step_registry_dispatch.2.2.2.2 (Vocab.new [implFooA, implBar]) stepFoo 0 rfl⟩

/-- Helper: regex escaping distributes over concatenation. -/
theorem regexEscape_append (a b : List Char) :
    regexEscape (a ++ b) = regexEscape a ++ regexEscape b := by
  induction a with
  | nil => simp [regexEscape]
  | cons c rest ih => simp [regexEscape, ih]

/-- Helper: a legal name character is neither the closing brace nor the
colon. -/
theorem nameChar_not_term {c : Char} (h : c = '_' ∨ c.isAlphanum = true) :
    ¬(c = '}' ∨ c = ':') := by
  rintro (rfl | rfl) <;> revert h <;> decide

/-- Helper: a legal name character does not trip the illegal-character
check. -/
theorem nameChar_legal {c : Char} (h : c = '_' ∨ c.isAlphanum = true) :
    ¬(c ≠ '_' ∧ c.isAlphanum = false) := by
  rintro ⟨h1, h2⟩
  rcases h with rfl | h
  · exact h1 rfl
  · rw [h] at h2; cases h2

/-- Helper: the scanner copies escape-free literal text into the pending
slice. -/
theorem scan_lit (s : List Char) (h : litOk s) (rest seg out : List Char) :
    scanAux (s ++ rest) .scanning seg out = scanAux rest .scanning (seg ++ s) out := by
  induction s generalizing seg with
  | nil => simp
  | cons c s' ih =>
    obtain ⟨hc1, hc2⟩ := h c (List.mem_cons_self c s')
    have h' : litOk s' := fun a ha => h a (List.mem_cons_of_mem _ ha)
    simp only [List.cons_append, scanAux]
    rw [if_neg hc1, if_neg hc2]
    simp only [List.append_eq]
    rw [ih h' (seg ++ [c])]
    simp

/-- Helper: the scanner accumulates legal name characters in the Ident
state. -/
theorem scan_ident (n : List Char) (h : nameChars n) (rest seg out : List Char) :
    scanAux (n ++ rest) .ident seg out = scanAux rest .ident (seg ++ n) out := by
  induction n generalizing seg with
  | nil => simp
  | cons c n' ih =>
    have hc := h c (List.mem_cons_self c n')
    have h' : nameChars n' := fun a ha => h a (List.mem_cons_of_mem _ ha)
    simp only [List.cons_append, scanAux]
    rw [if_neg (nameChar_not_term hc), if_neg (nameChar_legal hc)]
    simp only [List.append_eq]
    rw [ih h' (seg ++ [c])]
    simp

/-- Helper: the scanner accumulates brace-free characters in the
MatchPattern state. -/
theorem scan_pat (p : List Char) (h : ∀ c ∈ p, c ≠ '}') (rest seg out : List Char) :
    scanAux (p ++ rest) .matchPattern seg out =
      scanAux rest .matchPattern (seg ++ p) out := by
  induction p generalizing seg with
  | nil => simp
  | cons c p' ih =>
    have hc := h c (List.mem_cons_self c p')
    have h' : ∀ a ∈ p', a ≠ '}' := fun a ha => h a (List.mem_cons_of_mem _ ha)
    simp only [List.cons_append, scanAux]
    rw [if_neg hc]
    simp only [List.append_eq]
    rw [ih h' (seg ++ [c])]
    simp

/-- Helper: the scanner compiles a well-formed segment list as the
specification predicts, from any pending slice and output. -/
theorem scan_segs (segs : List PatSeg) (h : ∀ s ∈ segs, segOk s) (acc out : List Char) :
    scanAux (renderPat segs) .scanning acc out =
      .ok (out ++ regexEscape acc ++ compilePat segs) := by
  induction segs generalizing acc out with
  | nil => simp [renderPat, compilePat, scanAux]
  | cons sg rest ih =>
    have hsg := h sg (List.mem_cons_self sg rest)
    have h' : ∀ s ∈ rest, segOk s := fun s hs => h s (List.mem_cons_of_mem _ hs)
    cases sg with
    | lit s =>
      have hr : renderPat (PatSeg.lit s :: rest) = s ++ renderPat rest := by
        simp [renderPat, PatSeg.render]
      rw [hr, scan_lit s hsg _ acc out, ih h']
      simp [compilePat, PatSeg.compile, regexEscape_append, List.append_assoc]
    | cap n =>
      obtain ⟨hne, hchars⟩ := hsg
      have hr : renderPat (PatSeg.cap n :: rest) = '{' :: (n ++ ('}' :: renderPat rest)) := by
        simp [renderPat, PatSeg.render]
      rw [hr]
      have h1 : scanAux ('{' :: (n ++ ('}' :: renderPat rest))) .scanning acc out
          = scanAux (n ++ ('}' :: renderPat rest)) .ident [] (out ++ regexEscape acc) := by
        simp [scanAux]
      rw [h1, scan_ident n hchars _ [] _]
      have h2 : scanAux ('}' :: renderPat rest) .ident ([] ++ n) (out ++ regexEscape acc)
          = scanAux (renderPat rest) .scanning []
              ((out ++ regexEscape acc) ++ ("(?P<".toList ++ n ++ ">.*)".toList)) := by
        simp [scanAux, hne]
      rw [h2, ih h']
      simp [compilePat, PatSeg.compile, regexEscape, List.append_assoc]
    | capPat n p =>
      obtain ⟨⟨hne, hchars⟩, hpne, hpchars⟩ := hsg
      have hr : renderPat (PatSeg.capPat n p :: rest)
          = '{' :: (n ++ (':' :: (p ++ ('}' :: renderPat rest)))) := by
        simp [renderPat, PatSeg.render]
      rw [hr]
      have h1 : scanAux ('{' :: (n ++ (':' :: (p ++ ('}' :: renderPat rest))))) .scanning acc out
          = scanAux (n ++ (':' :: (p ++ ('}' :: renderPat rest)))) .ident []
              (out ++ regexEscape acc) := by
        simp [scanAux]
      rw [h1, scan_ident n hchars _ [] _]
      have h2 : scanAux (':' :: (p ++ ('}' :: renderPat rest))) .ident ([] ++ n)
            (out ++ regexEscape acc)
          = scanAux (p ++ ('}' :: renderPat rest)) .matchPattern []
              ((out ++ regexEscape acc) ++ ("(?P<".toList ++ n ++ ['>'])) := by
        simp [scanAux, hne]
      rw [h2, scan_pat p hpchars _ [] _]
      have h3 : scanAux ('}' :: renderPat rest) .matchPattern ([] ++ p)
            ((out ++ regexEscape acc) ++ ("(?P<".toList ++ n ++ ['>']))
          = scanAux (renderPat rest) .scanning []
              (((out ++ regexEscape acc) ++ ("(?P<".toList ++ n ++ ['>'])) ++ p ++ [')']) := by
        simp [scanAux, hpne]
      rw [h3, ih h']
      simp [compilePat, PatSeg.compile, regexEscape, List.append_assoc]

/-- Helper: behavior of the character-level scanner, used through the
byte/char equivalence on single-byte patterns. -/
theorem expandPattern_spec :
    (∀ segs : List PatSeg, (∀ s ∈ segs, segOk s) →
      expandPattern (renderPat segs) = .ok (compilePat segs)) ∧
    (∀ pre rest : List Char, litOk pre →
      expandPattern (pre ++ '{' :: '}' :: rest) = .error .captureMustHaveName) ∧
    (∀ pre rest : List Char, litOk pre →
      expandPattern (pre ++ '{' :: ':' :: rest) = .error .captureMustHaveName) ∧
    (∀ (pre n : List Char) (c : Char) (rest : List Char), litOk pre → nameChars n →
      c ≠ '}' → c ≠ ':' → c ≠ '_' → c.isAlphanum = false →
      expandPattern (pre ++ '{' :: (n ++ c :: rest)) =
        .error (.illegalCharInCaptureName c)) ∧
    (∀ pre n rest : List Char, litOk pre → nameOk n →
      expandPattern (pre ++ '{' :: (n ++ ':' :: '}' :: rest)) =
        .error .emptyCapturePattern) ∧
    (∀ (kw : StepKeyword) (body : String),
      finalPattern kw body = "^(?i)" ++ kw.prefixStr ++ body ++ "$") ∧
    (∀ kw : StepKeyword,
      kw.prefixStr = "Given " ∨ kw.prefixStr = "When " ∨ kw.prefixStr = "Then " ∨
      kw.prefixStr = "(?:Given|When|Then) " ∨ kw.prefixStr = "") := by
  refine ⟨fun segs h => ?_, fun pre rest h => ?_, fun pre rest h => ?_,
    fun pre n c rest hpre hn hc1 hc2 hc3 hc4 => ?_, fun pre n rest hpre hn => ?_,
    fun kw body => rfl, fun kw => ?_⟩
  · rw [expandPattern, scan_segs segs h [] []]
    simp [regexEscape]
  · rw [expandPattern, scan_lit pre h _ [] []]
    simp [scanAux]
  · rw [expandPattern, scan_lit pre h _ [] []]
    simp [scanAux]
  · rw [expandPattern, scan_lit pre hpre _ [] []]
    have h1 : scanAux ('{' :: (n ++ c :: rest)) .scanning ([] ++ pre) []
        = scanAux (n ++ c :: rest) .ident [] ([] ++ regexEscape ([] ++ pre)) := by
      simp [scanAux]
    rw [h1, scan_ident n hn _ [] _]
    simp [scanAux, hc1, hc2, hc3, hc4]
  · obtain ⟨hne, hchars⟩ := hn
    rw [expandPattern, scan_lit pre hpre _ [] []]
    have h1 : scanAux ('{' :: (n ++ ':' :: '}' :: rest)) .scanning ([] ++ pre) []
        = scanAux (n ++ ':' :: '}' :: rest) .ident [] ([] ++ regexEscape ([] ++ pre)) := by
      simp [scanAux]
    rw [h1, scan_ident n hchars _ [] _]
    simp [scanAux, hne]
  · cases kw <;> simp [StepKeyword.prefixStr]

/-- Helper: dropping bytes through single-byte text lands exactly after that
many characters. -/
theorem byteDrop?_append (pre rest : List Char) (h : allSingleByte pre) (start : Nat)
    (hstart : start ≤ pre.length) :
    byteDrop? (pre ++ rest) start = some (pre.drop start ++ rest) := by
  induction pre generalizing start with
  | nil =>
    have h0 : start = 0 := Nat.le_zero.mp hstart
    subst h0
    simp [byteDrop?]
  | cons c pre' ih =>
    cases start with
    | zero => simp [byteDrop?]
    | succ a =>
      have hc : c.utf8Size = 1 := h c (List.mem_cons_self c pre')
      have h' : allSingleByte pre' := fun x hx => h x (List.mem_cons_of_mem _ hx)
      have ha : a ≤ pre'.length := by
        have := hstart
        simp only [List.length_cons] at this
        omega
      simp only [List.cons_append, byteDrop?, hc, Nat.add_sub_cancel]
      rw [if_pos (by omega)]
      simpa using ih h' a ha

/-- Helper: taking the byte length of a single-byte prefix yields exactly
that prefix. -/
theorem byteTake?_prefix (xs ys : List Char) (h : allSingleByte xs) :
    byteTake? (xs ++ ys) xs.length = some xs := by
  induction xs with
  | nil => simp [byteTake?]
  | cons c xs' ih =>
    have hc : c.utf8Size = 1 := h c (List.mem_cons_self c xs')
    have h' : allSingleByte xs' := fun x hx => h x (List.mem_cons_of_mem _ hx)
    simp only [List.cons_append, List.length_cons, byteTake?, hc, Nat.add_sub_cancel]
    rw [if_pos (by omega)]
    simp [ih h']

/-- Helper: slicing the processed single-byte prefix from its start offset to
the current ordinal yields those characters, whatever follows. -/
theorem byteSlice?_pre (pre rest : List Char) (h : allSingleByte pre) (start : Nat)
    (hstart : start ≤ pre.length) :
    byteSlice? (pre ++ rest) start pre.length = some (pre.drop start) := by
  rw [byteSlice?, byteDrop?_append pre rest h start hstart]
  have hd : allSingleByte (pre.drop start) := fun x hx => h x (List.mem_of_mem_drop hx)
  have hlen : (pre.drop start).length = pre.length - start := List.length_drop start pre
  simp only [Option.some_bind]
  rw [← hlen, byteTake?_prefix (pre.drop start) rest hd]

/-- Helper: on a single-byte pattern the byte-offset scanner of the source
agrees with the character-level scanner, for every suffix position. -/
theorem scanBytes_eq_scanAux (q : List Char) :
    ∀ pre : List Char, allSingleByte (pre ++ q) →
    ∀ (st : ScanState) (start : Nat), start ≤ pre.length → ∀ out : List Char,
    scanBytes (pre ++ q) q pre.length st start out =
      liftE (scanAux q st (pre.drop start) out) := by
  induction q with
  | nil =>
    intro pre h st start hstart out
    cases st with
    | scanning =>
      have hd := byteDrop?_append pre [] (fun x hx => h x (by simp [hx])) start hstart
      simp only [List.append_nil] at hd ⊢
      simp [scanBytes, scanAux, hd, liftE]
    | escaped =>
      have hd := byteDrop?_append pre [] (fun x hx => h x (by simp [hx])) start hstart
      simp only [List.append_nil] at hd ⊢
      simp [scanBytes, scanAux, hd, liftE]
    | ident => simp [scanBytes, scanAux, liftE]
    | matchPattern => simp [scanBytes, scanAux, liftE]
  | cons c q' ih =>
    intro pre h st start hstart out
    have hpre : allSingleByte pre := fun x hx => h x (by simp [hx])
    have h' : allSingleByte ((pre ++ [c]) ++ q') := by
      intro x hx
      apply h
      simpa [List.append_assoc] using hx
    have hppc : (pre ++ [c]) ++ q' = pre ++ c :: q' := by simp
    have hstart1 : start ≤ (pre ++ [c]).length := by
      simp only [List.length_append, List.length_cons, List.length_nil]
      omega
    have hdropc : (pre ++ [c]).drop start = pre.drop start ++ [c] :=
      List.drop_append_of_le_length hstart
    have hdropfull : (pre ++ [c]).drop (pre.length + 1) = [] := by simp
    have hslice : byteSlice? (pre ++ c :: q') start pre.length = some (pre.drop start) :=
      byteSlice?_pre pre (c :: q') hpre start hstart
    have IH : ∀ (st2 : ScanState) (start2 : Nat), start2 ≤ (pre ++ [c]).length →
        ∀ out2 : List Char,
        scanBytes (pre ++ c :: q') q' (pre.length + 1) st2 start2 out2 =
          liftE (scanAux q' st2 ((pre ++ [c]).drop start2) out2) := by
      intro st2 start2 hs2 out2
      have hthis := ih (pre ++ [c]) h' st2 start2 hs2 out2
      rw [hppc] at hthis
      simpa using hthis
    cases st with
    | scanning =>
      by_cases hb : c = '\\'
      · subst hb
        rw [show scanBytes (pre ++ '\\' :: q') ('\\' :: q') pre.length .scanning start out
            = scanBytes (pre ++ '\\' :: q') q' (pre.length + 1) .escaped start out from by
          simp [scanBytes]]
        rw [IH .escaped start hstart1 out, hdropc]
        simp [scanAux]
      · by_cases hbr : c = '{'
        · subst hbr
          rw [show scanBytes (pre ++ '{' :: q') ('{' :: q') pre.length .scanning start out
              = scanBytes (pre ++ '{' :: q') q' (pre.length + 1) .ident (pre.length + 1)
                  (out ++ regexEscape (pre.drop start)) from by
            simp [scanBytes, hslice]]
          rw [IH .ident (pre.length + 1) (by simp) _, hdropfull]
          simp [scanAux]
        · rw [show scanBytes (pre ++ c :: q') (c :: q') pre.length .scanning start out
              = scanBytes (pre ++ c :: q') q' (pre.length + 1) .scanning start out from by
            simp [scanBytes, hb, hbr]]
          rw [IH .scanning start hstart1 out, hdropc]
          simp [scanAux, hb, hbr]
    | escaped =>
      rw [show scanBytes (pre ++ c :: q') (c :: q') pre.length .escaped start out
          = scanBytes (pre ++ c :: q') q' (pre.length + 1) .scanning start out from by
        simp [scanBytes]]
      rw [IH .scanning start hstart1 out, hdropc]
      simp [scanAux]
    | ident =>
      by_cases hterm : c = '}' ∨ c = ':'
      · rcases hterm with rfl | rfl
        · by_cases hemp : pre.drop start = []
          · rw [show scanBytes (pre ++ '}' :: q') ('}' :: q') pre.length .ident start out
                = .err .captureMustHaveName from by
              simp [scanBytes, hslice, hemp]]
            simp [scanAux, hemp, liftE]
          · rw [show scanBytes (pre ++ '}' :: q') ('}' :: q') pre.length .ident start out
                = scanBytes (pre ++ '}' :: q') q' (pre.length + 1) .scanning (pre.length + 1)
                    (out ++ ("(?P<".toList ++ pre.drop start ++ ">.*)".toList)) from by
              simp [scanBytes, hslice, hemp]]
            rw [IH .scanning (pre.length + 1) (by simp) _, hdropfull]
            simp [scanAux, hemp]
        · by_cases hemp : pre.drop start = []
          · rw [show scanBytes (pre ++ ':' :: q') (':' :: q') pre.length .ident start out
                = .err .captureMustHaveName from by
              simp [scanBytes, hslice, hemp]]
            simp [scanAux, hemp, liftE]
          · rw [show scanBytes (pre ++ ':' :: q') (':' :: q') pre.length .ident start out
                = scanBytes (pre ++ ':' :: q') q' (pre.length + 1) .matchPattern
                    (pre.length + 1)
                    (out ++ ("(?P<".toList ++ pre.drop start ++ ['>'])) from by
              simp [scanBytes, hslice, hemp]]
            rw [IH .matchPattern (pre.length + 1) (by simp) _, hdropfull]
            simp [scanAux, hemp]
      · by_cases hil : c ≠ '_' ∧ c.isAlphanum = false
        · rw [show scanBytes (pre ++ c :: q') (c :: q') pre.length .ident start out
              = .err (.illegalCharInCaptureName c) from by
            simp [scanBytes, hterm, hil]]
          simp [scanAux, hterm, hil, liftE]
        · rw [show scanBytes (pre ++ c :: q') (c :: q') pre.length .ident start out
              = scanBytes (pre ++ c :: q') q' (pre.length + 1) .ident start out from by
            simp [scanBytes, hterm, hil]]
          rw [IH .ident start hstart1 out, hdropc]
          simp [scanAux, hterm, hil]
    | matchPattern =>
      by_cases hbr : c = '}'
      · subst hbr
        by_cases hemp : pre.drop start = []
        · rw [show scanBytes (pre ++ '}' :: q') ('}' :: q') pre.length .matchPattern start out
              = .err .emptyCapturePattern from by
            simp [scanBytes, hslice, hemp]]
          simp [scanAux, hemp, liftE]
        · rw [show scanBytes (pre ++ '}' :: q') ('}' :: q') pre.length .matchPattern start out
              = scanBytes (pre ++ '}' :: q') q' (pre.length + 1) .scanning (pre.length + 1)
                  (out ++ pre.drop start ++ [')']) from by
            simp [scanBytes, hslice, hemp]]
          rw [IH .scanning (pre.length + 1) (by simp) _, hdropfull]
          simp [scanAux, hemp]
      · rw [show scanBytes (pre ++ c :: q') (c :: q') pre.length .matchPattern start out
            = scanBytes (pre ++ c :: q') q' (pre.length + 1) .matchPattern start out from by
          simp [scanBytes, hbr]]
        rw [IH .matchPattern start hstart1 out, hdropc]
        simp [scanAux, hbr]

/-- Helper: on a pattern whose characters are all single UTF-8 bytes, the
proc macro's byte-offset scanner computes what the character-level scanner
computes. -/
theorem expandPatternBytes_eq (p : List Char) (h : allSingleByte p) :
    expandPatternBytes p = liftE (expandPattern p) := by
  have hq := scanBytes_eq_scanAux p [] (by simpa using h) .scanning 0 (by simp) []
  simpa [expandPatternBytes, expandPattern] using hq

/-- Claim C8 (amended): on patterns whose characters are all single UTF-8
bytes, the expression compiler replaces a bare capture with a named group
over .*, replaces a typed capture with a named group over its pattern,
regex-escapes all literal text, and rejects at registration an empty capture
name, an empty capture pattern, and any capture-name character outside ASCII
alphanumerics and underscore; every compiled pattern is wrapped as
caret-(?i)-prefix-body-dollar with the prefix drawn from the five macro
prefixes.  On patterns with multibyte characters the macro instead panics or
mis-slices, because chars().enumerate() ordinals are used as byte offsets. -/
theorem C8_expression_pattern_compiler :
    (∀ segs : List PatSeg, (∀ s ∈ segs, segOk s) → allSingleByte (renderPat segs) →
      expandPatternBytes (renderPat segs) = .ok (compilePat segs)) ∧
    (∀ pre rest : List Char, litOk pre → allSingleByte (pre ++ '{' :: '}' :: rest) →
      expandPatternBytes (pre ++ '{' :: '}' :: rest) = .err .captureMustHaveName) ∧
    (∀ pre rest : List Char, litOk pre → allSingleByte (pre ++ '{' :: ':' :: rest) →
      expandPatternBytes (pre ++ '{' :: ':' :: rest) = .err .captureMustHaveName) ∧
    (∀ (pre n : List Char) (c : Char) (rest : List Char), litOk pre → nameChars n →
      allSingleByte (pre ++ '{' :: (n ++ c :: rest)) →
      c ≠ '}' → c ≠ ':' → c ≠ '_' → c.isAlphanum = false →
      expandPatternBytes (pre ++ '{' :: (n ++ c :: rest)) =
        .err (.illegalCharInCaptureName c)) ∧
    (∀ pre n rest : List Char, litOk pre → nameOk n →
      allSingleByte (pre ++ '{' :: (n ++ ':' :: '}' :: rest)) →
      expandPatternBytes (pre ++ '{' :: (n ++ ':' :: '}' :: rest)) =
        .err .emptyCapturePattern) ∧
    (∀ (kw : StepKeyword) (body : String),
      finalPattern kw body = "^(?i)" ++ kw.prefixStr ++ body ++ "$") ∧
    (∀ kw : StepKeyword,
      kw.prefixStr = "Given " ∨ kw.prefixStr = "When " ∨ kw.prefixStr = "Then " ∨
      kw.prefixStr = "(?:Given|When|Then) " ∨ kw.prefixStr = "") := by
  refine ⟨fun segs hok hascii => ?_, fun pre rest hok hascii => ?_,
    fun pre rest hok hascii => ?_, fun pre n c rest hok hn hascii hc1 hc2 hc3 hc4 => ?_,
    fun pre n rest hok hn hascii => ?_, expandPattern_spec.2.2.2.2.2.1,
    expandPattern_spec.2.2.2.2.2.2⟩
  · rw [expandPatternBytes_eq _ hascii, expandPattern_spec.1 segs hok]
    rfl
  · rw [expandPatternBytes_eq _ hascii, expandPattern_spec.2.1 pre rest hok]
    rfl
  · rw [expandPatternBytes_eq _ hascii, expandPattern_spec.2.2.1 pre rest hok]
    rfl
  · rw [expandPatternBytes_eq _ hascii,
      expandPattern_spec.2.2.2.1 pre n c rest hok hn hc1 hc2 hc3 hc4]
    rfl
  · rw [expandPatternBytes_eq _ hascii, expandPattern_spec.2.2.2.2.1 pre n rest hok hn]
    rfl

/-- Witness for C8_expression_pattern_compiler: the pattern
"a {n:[0-9]+} b{x}" compiles to the predicted regex, and each rejection
fires on a small concrete pattern. -/
theorem C8_expression_pattern_compiler_witness :
    expandPatternBytes (renderPat
        [.lit ['a', ' '], .capPat ['n'] ['0', '-', '9'], .lit [' ', 'b'], .cap ['x']]) =
      .ok (compilePat
        [.lit ['a', ' '], .capPat ['n'] ['0', '-', '9'], .lit [' ', 'b'], .cap ['x']]) ∧
    expandPatternBytes (['a'] ++ '{' :: '}' :: []) = .err .captureMustHaveName ∧
    expandPatternBytes (['a'] ++ '{' :: ':' :: []) = .err .captureMustHaveName ∧
    expandPatternBytes (['a'] ++ '{' :: (['x'] ++ '-' :: [])) =
      .err (.illegalCharInCaptureName '-') ∧
    expandPatternBytes (['a'] ++ '{' :: (['x'] ++ ':' :: '}' :: [])) =
      .err .emptyCapturePattern ∧
    finalPattern .given "abc" = "^(?i)" ++ StepKeyword.prefixStr .given ++ "abc" ++ "$" :=
  ⟨C8_expression_pattern_compiler.1 _ (by decide) (by decide),
   C8_expression_pattern_compiler.2.1 ['a'] [] (by decide) (by decide),
   C8_expression_pattern_compiler.2.2.1 ['a'] [] (by decide) (by decide),
   C8_expression_pattern_compiler.2.2.2.1 ['a'] ['x'] '-' [] (by decide) (by decide)
     (by decide) (by decide) (by decide) (by decide) (by decide),
   C8_expression_pattern_compiler.2.2.2.2.1 ['a'] ['x'] [] (by decide) (by decide)
     (by decide),
   C8_expression_pattern_compiler.2.2.2.2.2.1 .given "abc"⟩

/-- Counterexample to claim C8 as stated: on the pattern é then a capture
the proc macro panics (the literal slice ends at byte offset 1, inside the
two-byte é) instead of compiling to the escaped literal and named group; and
on é a then a capture every slice lands on a boundary but the macro silently
mis-slices, producing a regex different from the claimed compilation without
panicking. -/
theorem C8_counterexample :
    expandPatternBytes ['é', '{', 'x', '}'] = .panicked ∧
    MacroResult.panicked ≠ .ok (compilePat [.lit ['é'], .cap ['x']]) ∧
    expandPatternBytes ['é', 'a', '{', 'x', '}'] ≠
      .ok (compilePat [.lit ['é', 'a'], .cap ['x']]) ∧
    expandPatternBytes ['é', 'a', '{', 'x', '}'] ≠ .panicked :=
  ⟨rfl, by decide, by decide, by decide⟩

/-- Helper: a state with no task inside setup satisfies the protocol
invariant. -/
theorem inv_of_noRunning {s : FSys} (h : NoRunning s) : Inv s := by
  constructor
  · intro i j ti tj hi _ hri _ _
    exact absurd hri (h i ti hi)
  · intro i t hi hr
    exact absurd hr (h i t hi)

/-- Helper: updating one task to a non-running position preserves the
invariant against a map that still covers the remaining running tasks. -/
theorem inv_updTask_notRunning {s : FSys} (hinv : Inv s) (i : Nat) (t : ActTask)
    (hnr : t.pc ≠ .running) (m : Nat → Option FState)
    (hm : ∀ i' t', i' ≠ i → s.tasks i' = some t' → t'.pc = .running →
      m t'.key = some .pending) :
    Inv ⟨m, updTask s.tasks i t⟩ := by
  obtain ⟨huniq, hpend⟩ := hinv
  constructor
  · intro a b ta tb ha hb hra hrb hk
    by_cases hai : a = i
    · subst hai
      simp only [updTask, if_pos rfl] at ha
      injection ha with ha
      subst ha
      exact absurd hra hnr
    · by_cases hbi : b = i
      · subst hbi
        simp only [updTask, if_pos rfl] at hb
        injection hb with hb
        subst hb
        exact absurd hrb hnr
      · simp only [updTask, if_neg hai] at ha
        simp only [updTask, if_neg hbi] at hb
        exact huniq a b ta tb ha hb hra hrb hk
  · intro a ta ha hra
    by_cases hai : a = i
    · subst hai
      simp only [updTask, if_pos rfl] at ha
      injection ha with ha
      subst ha
      exact absurd hra hnr
    · simp only [updTask, if_neg hai] at ha
      exact hm a ta hai ha hra

/-- Helper: every protocol step preserves the invariant. -/
theorem inv_preserved {s s' : FSys} {e : FEv} (hinv : Inv s) (hs : FStep s e s') :
    Inv s' := by
  obtain ⟨huniq, hpend⟩ := hinv
  cases hs with
  | hitReady i k h1 h2 =>
    exact inv_updTask_notRunning ⟨huniq, hpend⟩ i ⟨k, .done true⟩ (by simp) s.fmap
      (fun i' t' _ h hr => hpend i' t' h hr)
  | startWait i k h1 h2 =>
    exact inv_updTask_notRunning ⟨huniq, hpend⟩ i ⟨k, .waiting⟩ (by simp) s.fmap
      (fun i' t' _ h hr => hpend i' t' h hr)
  | resume i k h1 h2 =>
    exact inv_updTask_notRunning ⟨huniq, hpend⟩ i ⟨k, .done true⟩ (by simp) s.fmap
      (fun i' t' _ h hr => hpend i' t' h hr)
  | hitFailed i k h1 h2 =>
    exact inv_updTask_notRunning ⟨huniq, hpend⟩ i ⟨k, .done false⟩ (by simp) s.fmap
      (fun i' t' _ h hr => hpend i' t' h hr)
  | beginSetup i k h1 h2 =>
    constructor
    · intro a b ta tb ha hb hra hrb hk
      by_cases hai : a = i <;> by_cases hbi : b = i
      · exact hai.trans hbi.symm
      · subst hai
        simp only [updTask, if_pos rfl] at ha
        simp only [updTask, if_neg hbi] at hb
        injection ha with ha
        subst ha
        have := hpend b tb hb hrb
        rw [← hk] at this
        exact absurd this (by rw [h2]; intro hzz; cases hzz)
      · subst hbi
        simp only [updTask, if_pos rfl] at hb
        simp only [updTask, if_neg hai] at ha
        injection hb with hb
        subst hb
        have := hpend a ta ha hra
        rw [hk] at this
        exact absurd this (by rw [h2]; intro hzz; cases hzz)
      · simp only [updTask, if_neg hai] at ha
        simp only [updTask, if_neg hbi] at hb
        exact huniq a b ta tb ha hb hra hrb hk
    · intro a ta ha hra
      by_cases hai : a = i
      · subst hai
        simp only [updTask, if_pos rfl] at ha
        injection ha with ha
        subst ha
        simp [updMap]
      · simp only [updTask, if_neg hai] at ha
        have := hpend a ta ha hra
        by_cases hk : ta.key = k
        · simp [updMap, hk]
        · simp [updMap, hk, this]
  | setupOk i k h1 =>
    refine inv_updTask_notRunning ⟨huniq, hpend⟩ i ⟨k, .done true⟩ (by simp)
      (updMap s.fmap k .ready) (fun i' t' hne h hr => ?_)
    have hkne : t'.key ≠ k := by
      intro hkk
      exact hne (huniq i' i t' ⟨k, .running⟩ h h1 hr rfl hkk)
    simp [updMap, hkne, hpend i' t' h hr]
  | setupErr i k h1 =>
    refine inv_updTask_notRunning ⟨huniq, hpend⟩ i ⟨k, .done false⟩ (by simp)
      (updMap s.fmap k .failed) (fun i' t' hne h hr => ?_)
    have hkne : t'.key ≠ k := by
      intro hkk
      exact hne (huniq i' i t' ⟨k, .running⟩ h h1 hr rfl hkk)
    simp [updMap, hkne, hpend i' t' h hr]
  | beforeHook k h1 => exact ⟨huniq, hpend⟩
  | afterHook k h1 => exact ⟨huniq, hpend⟩

/-- Helper: the invariant holds at every state reached from an invariant
state. -/
theorem reach_inv {s : FSys} {tr : List FEv} {s' : FSys} (hinv : Inv s)
    (hr : Reach s tr s') : Inv s' := by
  induction hr with
  | nil => exact hinv
  | cons hstep _ ih => exact ih (inv_preserved hinv hstep)

/-- Helper: one step changes each key only along the allowed edges absent,
to Pending, to Ready or Failed. -/
theorem step_shape {s s' : FSys} {e : FEv} (hinv : Inv s) (hs : FStep s e s')
    (k : Nat) :
    s'.fmap k = s.fmap k ∨
    (s.fmap k = none ∧ s'.fmap k = some .pending) ∨
    (s.fmap k = some .pending ∧
      (s'.fmap k = some .ready ∨ s'.fmap k = some .failed)) := by
  obtain ⟨huniq, hpend⟩ := hinv
  cases hs with
  | hitReady i k0 h1 h2 => exact Or.inl rfl
  | startWait i k0 h1 h2 => exact Or.inl rfl
  | resume i k0 h1 h2 => exact Or.inl rfl
  | hitFailed i k0 h1 h2 => exact Or.inl rfl
  | beginSetup i k0 h1 h2 =>
    by_cases hk : k = k0
    · subst hk
      exact Or.inr (Or.inl ⟨h2, by simp [updMap]⟩)
    · exact Or.inl (by simp [updMap, hk])
  | setupOk i k0 h1 =>
    have hp := hpend i ⟨k0, .running⟩ h1 rfl
    by_cases hk : k = k0
    · subst hk
      exact Or.inr (Or.inr ⟨hp, Or.inl (by simp [updMap])⟩)
    · exact Or.inl (by simp [updMap, hk])
  | setupErr i k0 h1 =>
    have hp := hpend i ⟨k0, .running⟩ h1 rfl
    by_cases hk : k = k0
    · subst hk
      exact Or.inr (Or.inr ⟨hp, Or.inr (by simp [updMap])⟩)
    · exact Or.inl (by simp [updMap, hk])
  | beforeHook k0 h1 => exact Or.inl rfl
  | afterHook k0 h1 => exact Or.inl rfl

/-- Helper: a present map entry never goes back to absent. -/
theorem fmap_ne_none_mono {s s' : FSys} {e : FEv} (hs : FStep s e s') (k : Nat)
    (h : s.fmap k ≠ none) : s'.fmap k ≠ none := by
  cases hs with
  | hitReady i k0 h1 h2 => exact h
  | startWait i k0 h1 h2 => exact h
  | resume i k0 h1 h2 => exact h
  | hitFailed i k0 h1 h2 => exact h
  | beginSetup i k0 h1 h2 =>
    by_cases hk : k = k0 <;> simp [updMap, hk, h]
  | setupOk i k0 h1 =>
    by_cases hk : k = k0 <;> simp [updMap, hk, h]
  | setupErr i k0 h1 =>
    by_cases hk : k = k0 <;> simp [updMap, hk, h]
  | beforeHook k0 h1 => exact h
  | afterHook k0 h1 => exact h

/-- Helper: a begin-setup event for key k prepends one to its count. -/
theorem countBegin_cons_begin (i k : Nat) (tr : List FEv) :
    countBegin (.beginSetup i k :: tr) k = countBegin tr k + 1 := by
  simp [countBegin, List.filter]

/-- Helper: any other event leaves the count unchanged. -/
theorem countBegin_cons_other {e : FEv} (k : Nat) (tr : List FEv)
    (h : ∀ i, e ≠ .beginSetup i k) :
    countBegin (e :: tr) k = countBegin tr k := by
  cases e with
  | beginSetup i k' =>
    have hk : k' ≠ k := fun hkk => h i (by subst hkk; rfl)
    simp [countBegin, List.filter, hk]
  | hitReady i => simp [countBegin, List.filter]
  | startWait i => simp [countBegin, List.filter]
  | resume i => simp [countBegin, List.filter]
  | hitFailed i => simp [countBegin, List.filter]
  | setupOk i => simp [countBegin, List.filter]
  | setupErr i => simp [countBegin, List.filter]
  | beforeHook k0 => simp [countBegin, List.filter]
  | afterHook k0 => simp [countBegin, List.filter]

/-- Helper: once a key is present in the map, no later trace event begins its
setup. -/
theorem no_begin_of_ne_none {s : FSys} {tr : List FEv} {s' : FSys}
    (hr : Reach s tr s') (k : Nat) :
    s.fmap k ≠ none → countBegin tr k = 0 := by
  induction hr with
  | nil => intro _; rfl
  | @cons s1 s2 s3 e es hstep hrest ih =>
    intro h
    have h' := fmap_ne_none_mono hstep k h
    have hne : ∀ i, e ≠ .beginSetup i k := by
      rintro i rfl
      cases hstep with
      | beginSetup i k h1 h2 => exact h h2
    rw [countBegin_cons_other k es hne]
    exact ih h'

/-- Helper: in any trace, setup begins at most once per key. -/
theorem countBegin_le_one {s : FSys} {tr : List FEv} {s' : FSys}
    (hr : Reach s tr s') (k : Nat) : countBegin tr k ≤ 1 := by
  induction hr with
  | nil => simp [countBegin]
  | @cons s1 s2 s3 e es hstep hrest ih =>
    by_cases hb : ∃ i, e = .beginSetup i k
    · obtain ⟨i, rfl⟩ := hb
      have h2 : s2.fmap k ≠ none := by
        cases hstep with
        | beginSetup i k h1 h2 => simp [updMap]
      have h0 := no_begin_of_ne_none hrest k h2
      rw [countBegin_cons_begin i k es, h0]
    · push_neg at hb
      rw [countBegin_cons_other k es hb]
      exact ih

/-- Helper: a task that finds a Failed entry can only take the hitFailed
step, returning an error, and no event of any task begins setup for that
key. -/
theorem failed_no_retry {s s' : FSys} {e : FEv} (hs : FStep s e s') (i k : Nat)
    (ht : s.tasks i = some ⟨k, .start⟩) (hf : s.fmap k = some .failed) :
    (evTask e = some i → e = .hitFailed i ∧ s'.tasks i = some ⟨k, .done false⟩) ∧
    (∀ j k', e = .beginSetup j k' → k' ≠ k) := by
  cases hs with
  | hitReady i0 k0 h1 h2 =>
    refine ⟨fun hev => ?_, fun j k' hjk => absurd hjk (by simp)⟩
    simp only [evTask, Option.some.injEq] at hev
    subst hev
    simp_all
  | startWait i0 k0 h1 h2 =>
    refine ⟨fun hev => ?_, fun j k' hjk => absurd hjk (by simp)⟩
    simp only [evTask, Option.some.injEq] at hev
    subst hev
    simp_all
  | resume i0 k0 h1 h2 =>
    refine ⟨fun hev => ?_, fun j k' hjk => absurd hjk (by simp)⟩
    simp only [evTask, Option.some.injEq] at hev
    subst hev
    simp_all
  | hitFailed i0 k0 h1 h2 =>
    refine ⟨fun hev => ?_, fun j k' hjk => absurd hjk (by simp)⟩
    simp only [evTask, Option.some.injEq] at hev
    subst hev
    rw [ht] at h1
    injection h1 with hh
    injection hh with hk hpc
    subst hk
    exact ⟨rfl, by simp [updTask]⟩
  | beginSetup i0 k0 h1 h2 =>
    constructor
    · intro hev
      simp only [evTask, Option.some.injEq] at hev
      subst hev
      rw [ht] at h1
      injection h1 with hh
      injection hh with hk hpc
      subst hk
      rw [hf] at h2
      cases h2
    · intro j k' hjk hkk
      injection hjk with hj hk2
      subst hk2
      subst hkk
      rw [hf] at h2
      cases h2
  | setupOk i0 k0 h1 =>
    refine ⟨fun hev => ?_, fun j k' hjk => absurd hjk (by simp)⟩
    simp only [evTask, Option.some.injEq] at hev
    subst hev
    simp_all
  | setupErr i0 k0 h1 =>
    refine ⟨fun hev => ?_, fun j k' hjk => absurd hjk (by simp)⟩
    simp only [evTask, Option.some.injEq] at hev
    subst hev
    simp_all
  | beforeHook k0 h1 =>
    exact ⟨fun hev => by simp [evTask] at hev, fun j k' hjk => absurd hjk (by simp)⟩
  | afterHook k0 h1 =>
    exact ⟨fun hev => by simp [evTask] at hev, fun j k' hjk => absurd hjk (by simp)⟩

/-- Claim C4 (confirmed): fixture entries move only along absent to Pending
to (Ready or Failed) and never backward; setup begins at most once per key
even under concurrent activate calls; a task that finds a Failed entry
returns an error without retrying setup; and the fixture before/after hooks
are invoked only on Ready entries while others are skipped. -/
theorem C4_fixture_lifecycle :
    (∀ (s0 : FSys) (tr : List FEv) (s : FSys), NoRunning s0 → Reach s0 tr s →
      ∀ (e : FEv) (s' : FSys), FStep s e s' → ∀ k : Nat,
        s'.fmap k = s.fmap k ∨
        (s.fmap k = none ∧ s'.fmap k = some .pending) ∨
        (s.fmap k = some .pending ∧
          (s'.fmap k = some .ready ∨ s'.fmap k = some .failed))) ∧
    (∀ (s0 : FSys) (tr : List FEv) (s : FSys), Reach s0 tr s →
      ∀ k : Nat, countBegin tr k ≤ 1) ∧
    (∀ (s : FSys) (e : FEv) (s' : FSys), FStep s e s' → ∀ i k : Nat,
      s.tasks i = some ⟨k, .start⟩ → s.fmap k = some .failed →
      (evTask e = some i → e = .hitFailed i ∧ s'.tasks i = some ⟨k, .done false⟩) ∧
      (∀ j k', e = .beginSetup j k' → k' ≠ k)) ∧
    (∀ (s : FSys) (e : FEv) (s' : FSys) (k : Nat), FStep s e s' →
      (e = .beforeHook k → s.fmap k = some .ready) ∧
      (e = .afterHook k → s.fmap k = some .ready)) ∧
    (∀ (m : Nat → Option FState) (keys : List Nat) (k : Nat),
      k ∈ invokedKeys m keys ↔ k ∈ keys ∧ m k = some .ready) := by
  refine ⟨fun s0 tr s hnr hr e s' hs k => ?_,
    fun s0 tr s hr k => countBegin_le_one hr k,
    fun s e s' hs i k ht hf => failed_no_retry hs i k ht hf,
    fun s e s' k hs => ?_, fun m keys k => ?_⟩
  · exact step_shape (reach_inv (inv_of_noRunning hnr) hr) hs k
  · cases hs with
    | beforeHook k0 h1 =>
      refine ⟨fun hk => ?_, fun hk => nomatch hk⟩
      injection hk with hk
      subst hk
      exact h1
    | afterHook k0 h1 =>
      refine ⟨(fun hk => nomatch hk), (fun hk => ?_)⟩
      injection hk with hk
      subst hk
      exact h1
    | hitReady i k0 h1 h2 => exact ⟨(fun hk => nomatch hk), (fun hk => nomatch hk)⟩
    | startWait i k0 h1 h2 => exact ⟨(fun hk => nomatch hk), (fun hk => nomatch hk)⟩
    | resume i k0 h1 h2 => exact ⟨(fun hk => nomatch hk), (fun hk => nomatch hk)⟩
    | hitFailed i k0 h1 h2 => exact ⟨(fun hk => nomatch hk), (fun hk => nomatch hk)⟩
    | beginSetup i k0 h1 h2 => exact ⟨(fun hk => nomatch hk), (fun hk => nomatch hk)⟩
    | setupOk i k0 h1 => exact ⟨(fun hk => nomatch hk), (fun hk => nomatch hk)⟩
    | setupErr i k0 h1 => exact ⟨(fun hk => nomatch hk), (fun hk => nomatch hk)⟩
  · simp [invokedKeys, List.mem_filter]

/-- Witness for C4_fixture_lifecycle: the trace that begins setup for key 5
and completes it successfully contains one begin event, and the step-shape
part holds for the begin step from the initial system. -/
theorem C4_fixture_lifecycle_witness :
    countBegin [FEv.beginSetup 0 5, FEv.setupOk 0] 5 ≤ 1 ∧
    (∀ k : Nat,
      (FSys.mk (updMap sysInit.fmap 5 .pending)
        (updTask sysInit.tasks 0 ⟨5, .running⟩)).fmap k = sysInit.fmap k ∨
      (sysInit.fmap k = none ∧
        (FSys.mk (updMap sysInit.fmap 5 .pending)
          (updTask sysInit.tasks 0 ⟨5, .running⟩)).fmap k = some .pending) ∨
      (sysInit.fmap k = some .pending ∧
        ((FSys.mk (updMap sysInit.fmap 5 .pending)
            (updTask sysInit.tasks 0 ⟨5, .running⟩)).fmap k = some .ready ∨
          (FSys.mk (updMap sysInit.fmap 5 .pending)
            (updTask sysInit.tasks 0 ⟨5, .running⟩)).fmap k = some .failed))) := by
  have hnr : NoRunning sysInit := by
    intro i t h
    by_cases hi : i = 0
    · subst hi
      simp [sysInit] at h
      rw [← h]
      simp
    · simp [sysInit, hi] at h
  have hbegin : FStep sysInit (.beginSetup 0 5)
      ⟨updMap sysInit.fmap 5 .pending, updTask sysInit.tasks 0 ⟨5, .running⟩⟩ :=
    FStep.beginSetup sysInit 0 5 rfl rfl
  have hok : FStep ⟨updMap sysInit.fmap 5 .pending, updTask sysInit.tasks 0 ⟨5, .running⟩⟩
      (.setupOk 0)
      ⟨updMap (updMap sysInit.fmap 5 .pending) 5 .ready,
        updTask (updTask sysInit.tasks 0 ⟨5, .running⟩) 0 ⟨5, .done true⟩⟩ :=
    FStep.setupOk _ 0 5 rfl
  refine ⟨C4_fixture_lifecycle.2.1 sysInit _ _
      (Reach.cons hbegin (Reach.cons hok (Reach.nil _))) 5,
    C4_fixture_lifecycle.1 sysInit [] sysInit hnr (Reach.nil _) _ _ hbegin⟩

/-- Counterexample to claim C9 as stated: set_passed on an outcome whose
ended timestamp is 0, performed at time 5, leaves ended at 0, while set_err
performed at time 5 does move ended to 5. -/
theorem C9_counterexample :
    ((Outcome.undecided cDemo 0).setPassed).ended = 0 ∧
    ((Outcome.undecided cDemo 0).setErr (.other "boom") 5).ended = 5 ∧
    (0 : Nat) ≠ 5 :=
  ⟨rfl, rfl, by decide⟩

end Zuke
